import Mathlib

/-!
Verification of the ISO 10962 CFI code validator.

This file gives a shallow embedding of the two Python modules of the
repository:

* cfi_validator.py — the compact validator returning a pair of a
  boolean and a message, plus a presentation helper named
  display_cfi_details that renders position data without validating;
* cfi_validator_test.py — the enhanced validator returning, in
  addition, a per-position decomposition, plus get_position_options
  and an enhanced display_cfi_details that re-validates first.

Python dictionaries are embedded as insertion-ordered association
lists, so key enumeration order in messages is preserved.  A Python
string argument that may also be a non-string value is embedded as an
Option String, the none case standing for every non-string Python
value (they all take the same early-return branch in the source).
Per the specification scope (section 1: no locale or encoding
handling beyond ASCII), the Python methods str.isalpha, str.upper and
str.lower are modelled on the ASCII range.
-/

abbrev Dict (α β : Type) := List (α × β)

/-- ASCII model of the Python predicate str.isalpha on one character. -/
def pyIsAlphaChar (c : Char) : Bool :=
  (65 ≤ c.toNat && c.toNat ≤ 90) || (97 ≤ c.toNat && c.toNat ≤ 122)

/-- ASCII model of Python str.isalpha: non-empty and every character a letter. -/
def pyIsAlphaString (s : String) : Bool :=
  !s.data.isEmpty && s.data.all pyIsAlphaChar

/-- ASCII model of Python str.upper on one character. -/
def pyUpperChar (c : Char) : Char :=
  if 97 ≤ c.toNat ∧ c.toNat ≤ 122 then Char.ofNat (c.toNat - 32) else c

/-- ASCII model of Python str.lower on one character. -/
def pyLowerChar (c : Char) : Char :=
  if 65 ≤ c.toNat ∧ c.toNat ≤ 90 then Char.ofNat (c.toNat + 32) else c

/-- Python str.upper over the character list of a code. -/
def pyUpper (l : List Char) : List Char := l.map pyUpperChar

/-- Python str.upper as a String-to-String map (side-effect free). -/
def pyUpperString (s : String) : String := String.mk (pyUpper s.data)

/-- Python str.lower as a String-to-String map (side-effect free). -/
def pyLowerString (s : String) : String := String.mk (s.data.map pyLowerChar)

namespace CFIValidator

/-- The CATEGORIES table of cfi_validator.py (valid categories). -/
def CATEGORIES : Dict Char String := [
  ('E', "Equities"),
  ('D', "Debt instruments"),
  ('R', "Entitlements (Rights)"),
  ('O', "Options"),
  ('F', "Futures"),
  ('S', "Swaps"),
  ('H', "Forward rate agreements and forward foreign exchange"),
  ('M', "Others/Miscellaneous"),
  ('I', "Spot"),
  ('J', "Deposits, Credits and Current accounts"),
  ('K', "Loans"),
  ('L', "Spot foreign exchange"),
  ('T', "Referential instruments")]

/-- The GROUPS table of cfi_validator.py (valid groups for each category). -/
def GROUPS : Dict Char (Dict Char String) := [
  ('E', [
    ('S', "Shares"),
    ('U', "Units (e.g., Unit trusts/Mutual funds)"),
    ('F', "Exchange Traded Funds (ETF)"),
    ('L', "Limited partnership units"),
    ('H', "Equity-held investment instruments"),
    ('R', "Real Estate Investment Trusts (REITs)"),
    ('P', "Protected and guaranteed equities"),
    ('C', "Cooperative"),
    ('X', "Other/Miscellaneous equities")]),
  ('D', [
    ('B', "Bonds"),
    ('T', "Treasury notes/bonds"),
    ('C', "Convertible bonds"),
    ('Y', "Money market instruments"),
    ('G', "Structured instruments (with capital guarantee)"),
    ('F', "Bonds with warrants attached"),
    ('P', "Perpetual bonds"),
    ('S', "Structured instruments (without capital guarantee)"),
    ('I', "Inflation linked bonds")]),
  ('R', [
    ('S', "Subscription rights"),
    ('D', "Dividend right certificates"),
    ('P', "Preference"),
    ('L', "Loyalty premiums"),
    ('F', "Founders shares"),
    ('Q', "Preference shares"),
    ('W', "Warrants"),
    ('B', "Redeemable preferred stocks"),
    ('T', "Miscellaneous entitlements")]),
  ('O', [
    ('C', "Call options"),
    ('P', "Put options"),
    ('X', "Options on options"),
    ('W', "Warrants"),
    ('F', "Future options"),
    ('S', "Spread options"),
    ('R', "Basket options"),
    ('I', "Index options"),
    ('J', "Currency options")]),
  ('F', [
    ('F', "Financial futures"),
    ('X', "Options on futures"),
    ('I', "Index futures"),
    ('R', "Interest rate futures"),
    ('E', "Currency futures"),
    ('C', "Commodity futures"),
    ('O', "Other futures"),
    ('W', "Weather-related futures"),
    ('B', "Bond futures")]),
  ('S', [
    ('I', "Interest rate"),
    ('F', "Foreign exchange"),
    ('B', "Basis"),
    ('X', "Exchange swaps and cross-currency swaps"),
    ('S', "Securities"),
    ('W', "Weather-related swaps"),
    ('R', "Return swaps"),
    ('K', "Commodity"),
    ('P', "Options on swaps (swaptions)")]),
  ('H', [
    ('F', "Forward foreign exchange agreements"),
    ('I', "Forward rate agreements"),
    ('X', "Other")]),
  ('M', [
    ('C', "Commodity"),
    ('R', "Reference rate"),
    ('O', "Other"),
    ('F', "Foreign exchange")]),
  ('I', [
    ('X', "Other"),
    ('F', "Foreign exchange"),
    ('C', "Commodity"),
    ('E', "Equity"),
    ('S', "Securities"),
    ('O', "Options")]),
  ('J', [
    ('D', "Deposits"),
    ('C', "Credits"),
    ('N', "Non-redeemable money market instruments"),
    ('R', "Redeemable money market instruments"),
    ('S', "Structured capital guarantee")]),
  ('K', [
    ('L', "Leveraged"),
    ('C', "Consumer"),
    ('M', "Mortgage"),
    ('S', "Syndicated"),
    ('G', "Government"),
    ('P', "Private"),
    ('F', "Federal agency"),
    ('A', "Agriculture")]),
  ('L', [
    ('S', "Spot")]),
  ('T', [
    ('I', "Interest/Yield rates"),
    ('R', "Reference rates"),
    ('F', "Foreign exchange rates"),
    ('U', "Economic indicators"),
    ('V', "Inflation rates"),
    ('N', "Reference indexes")])]

/-- The ATTRIBUTES table of cfi_validator.py: valid attribute options for
positions 3-6 keyed by the two-letter category-group string. -/
def ATTRIBUTES : Dict String (Dict Nat (Dict Char String)) := [
  ("ES", [
    (3, [('V', "Voting"), ('N', "Non-voting"), ('R', "Restricted voting"),
         ('X', "Not applicable/Not specified")]),
    (4, [('R', "Restricted"), ('N', "Free"),
         ('X', "Not applicable/Not specified")]),
    (5, [('P', "Partly paid"), ('F', "Fully paid"),
         ('X', "Not applicable/Not specified")]),
    (6, [('B', "Bearer"), ('R', "Registered"),
         ('X', "Not applicable/Not specified")])]),
  ("EU", [
    (3, [('O', "Open-end"), ('C', "Closed-end"),
         ('X', "Not applicable/Not specified")]),
    (4, [('R', "Restricted"), ('N', "Free"),
         ('X', "Not applicable/Not specified")]),
    (5, [('D', "Limited dividend"), ('C', "Cumulative"),
         ('X', "Not applicable/Not specified")]),
    (6, [('B', "Bearer"), ('R', "Registered"),
         ('X', "Not applicable/Not specified")])]),
  ("EF", [
    (3, [('O', "Open-end"), ('C', "Closed-end"),
         ('X', "Not applicable/Not specified")]),
    (4, [('R', "Restricted"), ('N', "Free"),
         ('X', "Not applicable/Not specified")]),
    (5, [('S', "Synthetic"), ('P', "Physical"), ('H', "Hybrid"),
         ('X', "Not applicable/Not specified")]),
    (6, [('B', "Bearer"), ('R', "Registered"),
         ('X', "Not applicable/Not specified")])]),
  ("DB", [
    (3, [('F', "Fixed rate"), ('Z', "Zero coupon"), ('V', "Variable rate"),
         ('I', "Inflation linked"), ('X', "Not applicable/Not specified")]),
    (4, [('S', "Secured/Collateralized"), ('U', "Unsecured/Uncollateralized"),
         ('X', "Not applicable/Not specified")]),
    (5, [('G', "Government/State guarantee"), ('S', "Supranational guarantee"),
         ('C', "Corporate guarantee"), ('X', "Not applicable/Not specified")]),
    (6, [('B', "Bearer"), ('R', "Registered"),
         ('X', "Not applicable/Not specified")])]),
  ("DT", [
    (3, [('F', "Fixed rate"), ('Z', "Zero coupon"), ('V', "Variable rate"),
         ('I', "Inflation linked"), ('X', "Not applicable/Not specified")]),
    (4, [('S', "Secured/Collateralized"), ('U', "Unsecured/Uncollateralized"),
         ('X', "Not applicable/Not specified")]),
    (5, [('G', "Government/State guarantee"), ('S', "Supranational guarantee"),
         ('X', "Not applicable/Not specified")]),
    (6, [('B', "Bearer"), ('R', "Registered"),
         ('X', "Not applicable/Not specified")])]),
  ("OC", [
    (3, [('A', "American"), ('B', "Bermuda"), ('E', "European"),
         ('X', "Not applicable/Not specified")]),
    (4, [('S', "Standard"), ('N', "Non-standard"),
         ('X', "Not applicable/Not specified")]),
    (5, [('P', "Physical"), ('C', "Cash"),
         ('X', "Not applicable/Not specified")]),
    (6, [('X', "Not applicable/Not specified")])]),
  ("OP", [
    (3, [('A', "American"), ('B', "Bermuda"), ('E', "European"),
         ('X', "Not applicable/Not specified")]),
    (4, [('S', "Standard"), ('N', "Non-standard"),
         ('X', "Not applicable/Not specified")]),
    (5, [('P', "Physical"), ('C', "Cash"),
         ('X', "Not applicable/Not specified")]),
    (6, [('X', "Not applicable/Not specified")])]),
  ("FF", [
    (3, [('X', "Not applicable/Not specified")]),
    (4, [('S', "Standard"), ('N', "Non-standard"),
         ('X', "Not applicable/Not specified")]),
    (5, [('P', "Physical"), ('C', "Cash"),
         ('X', "Not applicable/Not specified")]),
    (6, [('X', "Not applicable/Not specified")])]),
  ("SI", [
    (3, [('F', "Fixed-floating"), ('L', "Fixed-fixed"), ('V', "Floating-floating"),
         ('X', "Not applicable/Not specified")]),
    (4, [('S', "Single currency"), ('M', "Multi-currency"),
         ('X', "Not applicable/Not specified")]),
    (5, [('X', "Not applicable/Not specified")]),
    (6, [('X', "Not applicable/Not specified")])])]

end CFIValidator

/-- Python join of the keys of a character-keyed dictionary with a comma. -/
def joinKeysC (d : Dict Char String) : String :=
  String.intercalate ", " (d.map fun kv => String.singleton kv.1)

/-- Error message of the type and emptiness precondition. -/
def strTypeMsg : String := "CFI code must be a string"

/-- Error message of the length precondition. -/
def lengthMsg : String := "CFI code must be exactly 6 characters"

/-- Error message of the alphabetic-only precondition. -/
def notAlphaMsg : String := "CFI code must contain only alphabetic characters"

/-- The invalid-category message of both validators. -/
def mkCatMsg (c : Char) : String :=
  "Invalid category '" ++ String.singleton c ++ "'. Must be one of: "
    ++ joinKeysC CFIValidator.CATEGORIES

/-- The invalid-group message of both validators. -/
def mkGroupMsg (g c : Char) (d : Dict Char String) : String :=
  "Invalid group '" ++ String.singleton g ++ "' for category '"
    ++ String.singleton c ++ "'. Valid groups: " ++ joinKeysC d

/-- The invalid-attribute message of both validators. -/
def mkInvalidAttrMsg (c : Char) (p : Nat) (cg : String) (opts : Dict Char String) : String :=
  "Invalid attribute '" ++ String.singleton c ++ "' at position " ++ toString p
    ++ " for " ++ cg ++ ". Valid options: " ++ joinKeysC opts

/-- The per-position must-be-alphabetic message of both validators. -/
def mkAlphaPosMsg (p : Nat) : String :=
  "Character at position " ++ toString p ++ " must be alphabetic"

/-- The success message of both validators. -/
def validMsg (catDesc grpDesc : String) : String :=
  "Valid CFI code for " ++ catDesc ++ " - " ++ grpDesc

namespace CFIValidator

/-- The attribute loop of validate in cfi_validator.py for a category-group
pair present in ATTRIBUTES: zero-indexed positions are scanned in order,
stopping at the first failure.  The branch on the position lookup is the
per-position fallback of the source (alphabetic accepted when the pair
defines no rule for this position). -/
def checkAttrs (rules : Dict Nat (Dict Char String)) (cg : String)
    (code : List Char) : List Nat → Option String
  | [] => none
  | position :: rest =>
    let char := code.getD position ' '
    match rules.lookup (position + 1) with
    | some opts =>
      if (opts.lookup char).isSome then checkAttrs rules cg code rest
      else some (mkInvalidAttrMsg char (position + 1) cg opts)
    | none =>
      if pyIsAlphaChar char then checkAttrs rules cg code rest
      else some (mkAlphaPosMsg (position + 1))

/-- The attribute loop of validate in cfi_validator.py for a category-group
pair absent from ATTRIBUTES: every scanned character need only be
alphabetic. -/
def checkNoRules (code : List Char) : List Nat → Option String
  | [] => none
  | i :: rest =>
    if pyIsAlphaChar (code.getD i ' ') then checkNoRules code rest
    else some (mkAlphaPosMsg (i + 1))

/-- The category, group and attribute phase of validate in cfi_validator.py,
applied to the uppercased character list of a length-6 alphabetic code. -/
def afterBasic (code : List Char) : Bool × String :=
  let category := code.getD 0 ' '
  match CATEGORIES.lookup category with
  | none => (false, mkCatMsg category)
  | some catDesc =>
    let group := code.getD 1 ' '
    match ((GROUPS.lookup category).getD []).lookup group with
    | none => (false, mkGroupMsg group category ((GROUPS.lookup category).getD []))
    | some grpDesc =>
      let cg := String.mk [category, group]
      match ATTRIBUTES.lookup cg with
      | some rules =>
        match checkAttrs rules cg code [2, 3, 4, 5] with
        | some m => (false, m)
        | none => (true, validMsg catDesc grpDesc)
      | none =>
        match checkNoRules code [2, 3, 4, 5] with
        | some m => (false, m)
        | none => (true, validMsg catDesc grpDesc)

/-- The compact validate of cfi_validator.py.  The none case of the input
stands for every non-string Python value; the emptiness test models the
Python truthiness check on strings. -/
def validate (cfi_code : Option String) : Bool × String :=
  match cfi_code with
  | none => (false, strTypeMsg)
  | some s =>
    if s.length = 0 then (false, strTypeMsg)
    else if s.length ≠ 6 then (false, lengthMsg)
    else if pyIsAlphaString s = false then (false, notAlphaMsg)
    else afterBasic (pyUpper s.data)

end CFIValidator

namespace CFIValidatorEnhanced

/-- The POSITION_DESCRIPTIONS table of cfi_validator_test.py. -/
def POSITION_DESCRIPTIONS : Nat → String
  | 1 => "Category - Primary classification of the financial instrument"
  | 2 => "Group - Secondary classification within the category"
  | 3 => "Attribute 1 - Specific characteristics related to the instrument type"
  | 4 => "Attribute 2 - Additional characteristics/features"
  | 5 => "Attribute 3 - Further specification of the instrument"
  | 6 => "Attribute 4 - Final specification details"
  | _ => ""

/-- The CATEGORIES table of cfi_validator_test.py, duplicated verbatim from
cfi_validator.py in the source. -/
def CATEGORIES : Dict Char String := CFIValidator.CATEGORIES

/-- The GROUPS table of cfi_validator_test.py, duplicated verbatim from
cfi_validator.py in the source. -/
def GROUPS : Dict Char (Dict Char String) := CFIValidator.GROUPS

/-- The ATTRIBUTES table of cfi_validator_test.py, duplicated verbatim from
cfi_validator.py in the source. -/
def ATTRIBUTES : Dict String (Dict Nat (Dict Char String)) := CFIValidator.ATTRIBUTES

/-- One record of the positions_info dictionary built by the enhanced
validate: description, raw character, semantic meaning, validity flag and
error detail, the last four unset until the scan resolves the position. -/
structure PosInfo where
  description : String
  value : Option Char
  meaning : Option String
  valid : Option Bool
  error : Option String
deriving DecidableEq

/-- The positions_info dictionary, keyed by the 1-indexed position. -/
abbrev Info := Nat → PosInfo

/-- The initial positions_info of the enhanced validate: every position
carries its description and nothing else. -/
def initInfo : Info := fun i =>
  { description := POSITION_DESCRIPTIONS i
    value := none, meaning := none, valid := none, error := none }

/-- Assignment of one key of the positions_info dictionary. -/
def setInfo (I : Info) (i : Nat) (p : PosInfo) : Info :=
  fun j => if j = i then p else I j

/-- The attribute loop of the enhanced validate for a category-group pair
present in ATTRIBUTES.  Each step records the raw character and either the
meaning and a positive validity flag, or a negative flag with the error
detail, stopping at the first failure.  The Python source assigns the
fields one by one; each branch here performs the same net record update. -/
def checkAttrs (rules : Dict Nat (Dict Char String)) (cg : String)
    (code : List Char) : List Nat → Info → Option String × Info
  | [], I => (none, I)
  | position :: rest, I =>
    let char := code.getD position ' '
    match rules.lookup (position + 1) with
    | some opts =>
      match opts.lookup char with
      | some meaning =>
        checkAttrs rules cg code rest
          (setInfo I (position + 1)
            { I (position + 1) with value := some char, meaning := some meaning,
                                    valid := some true })
      | none =>
        let err := mkInvalidAttrMsg char (position + 1) cg opts
        (some err,
          setInfo I (position + 1)
            { I (position + 1) with value := some char, valid := some false,
                                    error := some err })
    | none =>
      if pyIsAlphaChar char then
        checkAttrs rules cg code rest
          (setInfo I (position + 1)
            { I (position + 1) with value := some char,
                                    meaning := some "Custom attribute (no predefined meaning)",
                                    valid := some true })
      else
        let err := mkAlphaPosMsg (position + 1)
        (some err,
          setInfo I (position + 1)
            { I (position + 1) with value := some char, valid := some false,
                                    error := some err })

/-- The attribute loop of the enhanced validate for a category-group pair
absent from ATTRIBUTES: alphabetic characters are accepted with the
not-applicable meaning for X and the custom-attribute meaning otherwise. -/
def checkNoRules (code : List Char) : List Nat → Info → Option String × Info
  | [], I => (none, I)
  | i :: rest, I =>
    let char := code.getD i ' '
    if pyIsAlphaChar char then
      checkNoRules code rest
        (setInfo I (i + 1)
          { I (i + 1) with value := some char,
                           meaning := some (if char = 'X' then "Not applicable/Not specified"
                                            else "Custom attribute (no predefined meaning)"),
                           valid := some true })
    else
      let err := mkAlphaPosMsg (i + 1)
      (some err,
        setInfo I (i + 1)
          { I (i + 1) with value := some char, valid := some false, error := some err })

/-- The category, group and attribute phase of the enhanced validate,
applied to the uppercased character list of a length-6 alphabetic code. -/
def afterBasic (code : List Char) (I : Info) : Bool × String × Info :=
  let category := code.getD 0 ' '
  let I1 := setInfo I 1 { I 1 with value := some category }
  match CATEGORIES.lookup category with
  | none =>
    let err := mkCatMsg category
    (false, err, setInfo I1 1 { I1 1 with valid := some false, error := some err })
  | some catDesc =>
    let I2 := setInfo I1 1 { I1 1 with meaning := some catDesc, valid := some true }
    let group := code.getD 1 ' '
    let I3 := setInfo I2 2 { I2 2 with value := some group }
    match ((GROUPS.lookup category).getD []).lookup group with
    | none =>
      let err := mkGroupMsg group category ((GROUPS.lookup category).getD [])
      (false, err, setInfo I3 2 { I3 2 with valid := some false, error := some err })
    | some grpDesc =>
      let I4 := setInfo I3 2 { I3 2 with meaning := some grpDesc, valid := some true }
      let cg := String.mk [category, group]
      match ATTRIBUTES.lookup cg with
      | some rules =>
        match checkAttrs rules cg code [2, 3, 4, 5] I4 with
        | (some m, I5) => (false, m, I5)
        | (none, I5) => (true, validMsg catDesc grpDesc, I5)
      | none =>
        match checkNoRules code [2, 3, 4, 5] I4 with
        | (some m, I5) => (false, m, I5)
        | (none, I5) => (true, validMsg catDesc grpDesc, I5)

/-- The enhanced validate of cfi_validator_test.py, returning the validity
flag, the message and the per-position decomposition. -/
def validate (cfi_code : Option String) : Bool × String × Info :=
  match cfi_code with
  | none => (false, strTypeMsg, initInfo)
  | some s =>
    if s.length = 0 then (false, strTypeMsg, initInfo)
    else if s.length ≠ 6 then (false, lengthMsg, initInfo)
    else if pyIsAlphaString s = false then (false, notAlphaMsg, initInfo)
    else afterBasic (pyUpper s.data) initInfo

/-- Python membership test of a possibly-absent category in CATEGORIES
(False for the Python None argument). -/
def categoryRegistered : Option Char → Bool
  | some c => (CATEGORIES.lookup c).isSome
  | none => false

/-- The get_position_options lookup of cfi_validator_test.py.  The none
cases of the category and group arguments stand for the Python None (or
any falsy) argument. -/
def get_position_options (category : Option Char) (group : Option Char)
    (position : Nat) : Dict Char String :=
  if position = 1 then CATEGORIES
  else if position == 2 && categoryRegistered category then
    match category with
    | some c => (GROUPS.lookup c).getD []
    | none => []
  else if (position == 3 || position == 4 || position == 5 || position == 6)
      && category.isSome && group.isSome then
    match category, group with
    | some c, some g =>
      let cg := String.mk [c, g]
      match ATTRIBUTES.lookup cg with
      | some rules =>
        match rules.lookup position with
        | some opts => opts
        | none => [('X', "Not applicable/Not specified")]
      | none => [('X', "Not applicable/Not specified")]
    | _, _ => []
  else []

end CFIValidatorEnhanced

/-- Rendering of an optional character the way a Python f-string prints it
(the text None when the value is absent). -/
def showOptChar : Option Char → String
  | some c => String.singleton c
  | none => "None"

/-- Rendering of an optional string the way a Python f-string prints it. -/
def showOptString : Option String → String
  | some s => s
  | none => "None"

namespace CFIValidator

/-- The attribute lines printed by display_cfi_details of cfi_validator.py
when the category-group pair has an ATTRIBUTES entry. -/
def displayAttrLines (rules : Dict Nat (Dict Char String)) (code : List Char) :
    List Nat → List String
  | [] => []
  | pos :: rest =>
    let char := code.getD pos ' '
    let posIndex := pos + 1
    (match (rules.lookup posIndex).bind (fun opts => opts.lookup char) with
     | some attrDesc =>
       "Attribute " ++ toString posIndex ++ ": " ++ String.singleton char ++ " - " ++ attrDesc
     | none =>
       if char = 'X' then
         "Attribute " ++ toString posIndex ++ ": " ++ String.singleton char
           ++ " - Not applicable/Not specified"
       else
         "Attribute " ++ toString posIndex ++ ": " ++ String.singleton char)
    :: displayAttrLines rules code rest

/-- The attribute lines printed by display_cfi_details of cfi_validator.py
when the category-group pair has no ATTRIBUTES entry. -/
def displayPlainLines (code : List Char) : List Nat → List String
  | [] => []
  | pos :: rest =>
    let char := code.getD pos ' '
    let posIndex := pos + 1
    (if char = 'X' then
       "Attribute " ++ toString posIndex ++ ": " ++ String.singleton char
         ++ " - Not applicable/Not specified"
     else
       "Attribute " ++ toString posIndex ++ ": " ++ String.singleton char)
    :: displayPlainLines code rest

/-- The display_cfi_details helper of cfi_validator.py, embedded as the list
of texts it prints.  It performs no validation of its argument: it
uppercases the code and renders whatever the tables yield, with the text
Unknown when a lookup fails.  (For an argument shorter than 3 characters
the Python source raises an IndexError on indexing; the embedding reads a
blank there, which no claim exercises.) -/
def display_cfi_details (cfi_code : String) : List String :=
  let code := pyUpper cfi_code.data
  let category := code.getD 0 ' '
  let group := code.getD 1 ' '
  let cg := String.mk [category, group]
  ["\nCFI Code: " ++ String.mk code,
   "======================",
   "Category (1st): " ++ String.singleton category ++ " - "
     ++ (CATEGORIES.lookup category).getD "Unknown",
   "Group (2nd): " ++ String.singleton group ++ " - "
     ++ (((GROUPS.lookup category).getD []).lookup group).getD "Unknown"]
  ++ match ATTRIBUTES.lookup cg with
     | some rules => displayAttrLines rules code [2, 3, 4, 5]
     | none => displayPlainLines code [2, 3, 4, 5]

end CFIValidator

namespace CFIValidatorEnhanced

/-- The option lines of the enhanced display helper: one line per key of a
dictionary. -/
def optionLines (d : Dict Char String) : List String :=
  d.map fun kv => "  " ++ String.singleton kv.1 ++ " - " ++ kv.2

/-- The per-position lines of the enhanced display helper, reading the
decomposition records and then the tables (the source indexes the original,
non-uppercased code here, embedded the same way). -/
def positionLines (cfi_code : String) (I : Info) : List Nat → List String
  | [] => []
  | pos :: rest =>
    let info := I pos
    (["\nPosition " ++ toString pos ++ ": " ++ showOptChar info.value,
      "Description: " ++ info.description,
      "Meaning: " ++ showOptString info.meaning]
     ++ (if pos = 1 then
           "Possible options:" :: optionLines CATEGORIES
         else if pos = 2 then
           let category := cfi_code.data.getD 0 ' '
           ("Possible options for category " ++ String.singleton category ++ ":")
             :: optionLines ((GROUPS.lookup category).getD [])
         else
           let cg := String.mk [cfi_code.data.getD 0 ' ', cfi_code.data.getD 1 ' ']
           match (ATTRIBUTES.lookup cg).bind (fun rules => rules.lookup pos) with
           | some opts =>
             ("Possible options for position " ++ toString pos ++ ":") :: optionLines opts
           | none => ["No specific validation rules for this position."]))
    ++ positionLines cfi_code I rest

/-- The display_cfi_details helper of cfi_validator_test.py, embedded as the
list of texts it prints.  It re-validates its argument first and prints
only a rejection line when the code is invalid. -/
def display_cfi_details (cfi_code : String) : List String :=
  match validate (some cfi_code) with
  | (is_valid, message, positions_info) =>
    if is_valid = false then
      ["\nâœ— Invalid CFI code: " ++ message]
    else
      ["\nCFI Code: " ++ cfi_code,
       "===================",
       "ISO 10962 Classification of Financial Instruments",
       "==================="]
      ++ positionLines cfi_code positions_info [1, 2, 3, 4, 5, 6]

end CFIValidatorEnhanced

/-- The six domain error kinds of the specification error taxonomy
(section 7).  The per-position must-be-alphabetic message belongs to the
NonAlphabetic kind. -/
inductive ErrorKind
  | emptyOrWrongType
  | invalidLength
  | nonAlphabetic
  | unknownCategory
  | unknownGroup
  | invalidAttribute

/-- The message forms each error kind takes in the validators. -/
def messageOfKind : ErrorKind → String → Prop
  | .emptyOrWrongType, m => m = strTypeMsg
  | .invalidLength, m => m = lengthMsg
  | .nonAlphabetic, m => m = notAlphaMsg ∨ ∃ p, m = mkAlphaPosMsg p
  | .unknownCategory, m => ∃ c, m = mkCatMsg c
  | .unknownGroup, m => ∃ g c d, m = mkGroupMsg g c d
  | .invalidAttribute, m => ∃ c p cg opts, m = mkInvalidAttrMsg c p cg opts

namespace CFIValidatorEnhanced

/-- A position record the scan resolved and accepted: positive validity
flag, raw character and meaning both present. -/
def resolvedOK (p : PosInfo) : Prop :=
  p.valid = some true ∧ p.value ≠ none ∧ p.meaning ≠ none

/-- A position record the scan never reached: raw character, meaning and
validity flag all unset. -/
def unresolved (p : PosInfo) : Prop :=
  p.value = none ∧ p.meaning = none ∧ p.valid = none

/-- A position record carrying the failure: negative validity flag with the
raw character and the error detail recorded. -/
def failedAt (p : PosInfo) : Prop :=
  p.valid = some false ∧ p.value ≠ none ∧ p.error ≠ none

end CFIValidatorEnhanced

section Helpers

/-- Conversion back to Nat of a character built from a valid code point. -/
theorem toNat_ofNat_valid (n : Nat) (h : n.isValidChar) : (Char.ofNat n).toNat = n := by
  simp [Char.ofNat, h, Char.ofNatAux, Char.toNat, UInt32.toNat, UInt32.ofNat']

/-- Characterisation of the ASCII letter test. -/
theorem pyIsAlphaChar_iff (c : Char) :
    pyIsAlphaChar c = true
      ↔ (65 ≤ c.toNat ∧ c.toNat ≤ 90) ∨ (97 ≤ c.toNat ∧ c.toNat ≤ 122) := by
  simp [pyIsAlphaChar]

/-- Uppercasing is idempotent on every character. -/
theorem pyUpperChar_pyUpperChar (c : Char) :
    pyUpperChar (pyUpperChar c) = pyUpperChar c := by
  unfold pyUpperChar
  by_cases h : 97 ≤ c.toNat ∧ c.toNat ≤ 122
  · rw [if_pos h]
    have ht : (Char.ofNat (c.toNat - 32)).toNat = c.toNat - 32 :=
      toNat_ofNat_valid _ (Or.inl (by omega))
    rw [if_neg (by rw [ht]; omega)]
  · rw [if_neg h, if_neg h]

/-- Uppercasing after lowercasing equals plain uppercasing. -/
theorem pyUpperChar_pyLowerChar (c : Char) :
    pyUpperChar (pyLowerChar c) = pyUpperChar c := by
  unfold pyUpperChar pyLowerChar
  by_cases h : 65 ≤ c.toNat ∧ c.toNat ≤ 90
  · rw [if_pos h]
    have ht : (Char.ofNat (c.toNat + 32)).toNat = c.toNat + 32 :=
      toNat_ofNat_valid _ (Or.inl (by omega))
    rw [if_pos (by rw [ht]; omega), ht]
    have h32 : c.toNat + 32 - 32 = c.toNat := by omega
    rw [h32, Char.ofNat_toNat, if_neg (by omega)]
  · rw [if_neg h]

/-- Uppercasing preserves the ASCII letter test. -/
theorem pyIsAlphaChar_pyUpperChar (c : Char) :
    pyIsAlphaChar (pyUpperChar c) = pyIsAlphaChar c := by
  unfold pyUpperChar
  by_cases h : 97 ≤ c.toNat ∧ c.toNat ≤ 122
  · rw [if_pos h]
    have ht : (Char.ofNat (c.toNat - 32)).toNat = c.toNat - 32 :=
      toNat_ofNat_valid _ (Or.inl (by omega))
    rw [Bool.eq_iff_iff, pyIsAlphaChar_iff, pyIsAlphaChar_iff, ht]
    omega
  · rw [if_neg h]

/-- Lowercasing preserves the ASCII letter test. -/
theorem pyIsAlphaChar_pyLowerChar (c : Char) :
    pyIsAlphaChar (pyLowerChar c) = pyIsAlphaChar c := by
  unfold pyLowerChar
  by_cases h : 65 ≤ c.toNat ∧ c.toNat ≤ 90
  · rw [if_pos h]
    have ht : (Char.ofNat (c.toNat + 32)).toNat = c.toNat + 32 :=
      toNat_ofNat_valid _ (Or.inl (by omega))
    rw [Bool.eq_iff_iff, pyIsAlphaChar_iff, pyIsAlphaChar_iff, ht]
    omega
  · rw [if_neg h]

/-- The length of an uppercased string. -/
theorem pyUpperString_length (s : String) : (pyUpperString s).length = s.length := by
  obtain ⟨l⟩ := s
  simp [pyUpperString, pyUpper, String.length]

/-- The length of a lowercased string. -/
theorem pyLowerString_length (s : String) : (pyLowerString s).length = s.length := by
  obtain ⟨l⟩ := s
  simp [pyLowerString, String.length]

/-- Uppercasing preserves the whole-string letter test. -/
theorem pyIsAlphaString_pyUpperString (s : String) :
    pyIsAlphaString (pyUpperString s) = pyIsAlphaString s := by
  have hf : (fun c => pyIsAlphaChar (pyUpperChar c)) = pyIsAlphaChar :=
    funext pyIsAlphaChar_pyUpperChar
  simp [pyIsAlphaString, pyUpperString, pyUpper, List.all_map, Function.comp_def, hf]
  cases s.data <;> simp

/-- Lowercasing preserves the whole-string letter test. -/
theorem pyIsAlphaString_pyLowerString (s : String) :
    pyIsAlphaString (pyLowerString s) = pyIsAlphaString s := by
  have hf : (fun c => pyIsAlphaChar (pyLowerChar c)) = pyIsAlphaChar :=
    funext pyIsAlphaChar_pyLowerChar
  simp [pyIsAlphaString, pyLowerString, List.all_map, Function.comp_def, hf]
  cases s.data <;> simp

/-- The uppercased character list of an already uppercased string. -/
theorem pyUpper_pyUpperString (s : String) :
    pyUpper (pyUpperString s).data = pyUpper s.data := by
  have hf : (fun c => pyUpperChar (pyUpperChar c)) = pyUpperChar :=
    funext pyUpperChar_pyUpperChar
  simp [pyUpperString, pyUpper, ← List.map_comp_map, Function.comp_def, hf]

/-- The uppercased character list of a lowercased string. -/
theorem pyUpper_pyLowerString (s : String) :
    pyUpper (pyLowerString s).data = pyUpper s.data := by
  have hf : (fun c => pyUpperChar (pyLowerChar c)) = pyUpperChar :=
    funext pyUpperChar_pyLowerChar
  simp [pyLowerString, pyUpper, ← List.map_comp_map, Function.comp_def, hf]

end Helpers

section Congruence

/-- The compact validate depends on its string argument only through the
length, the letter test and the uppercased character list. -/
theorem validate_congr (s t : String) (hlen : s.length = t.length)
    (ha : pyIsAlphaString s = pyIsAlphaString t)
    (hu : pyUpper s.data = pyUpper t.data) :
    CFIValidator.validate (some s) = CFIValidator.validate (some t) := by
  simp only [CFIValidator.validate]
  rw [hlen, ha, hu]

/-- The enhanced validate depends on its string argument only through the
length, the letter test and the uppercased character list. -/
theorem validateE_congr (s t : String) (hlen : s.length = t.length)
    (ha : pyIsAlphaString s = pyIsAlphaString t)
    (hu : pyUpper s.data = pyUpper t.data) :
    CFIValidatorEnhanced.validate (some s) = CFIValidatorEnhanced.validate (some t) := by
  simp only [CFIValidatorEnhanced.validate]
  rw [hlen, ha, hu]

end Congruence

/-- C3: for every length-6 string of ASCII letters, both validators are
case-insensitive: the outcome on the string equals the outcome on its
uppercased and on its lowercased form.  The validators are embedded as
pure functions on immutable values, so the absence of mutation of the
argument is intrinsic to the embedding (the Python source rebinds a local
to a fresh uppercased string and never mutates the argument, which is
immutable in Python as well). -/
theorem C3_case_insensitive (s : String)
    (_hlen : s.length = 6)
    (_halpha : ∀ c ∈ s.data, pyIsAlphaChar c = true) :
    (CFIValidator.validate (some s) = CFIValidator.validate (some (pyUpperString s))
      ∧ CFIValidator.validate (some s) = CFIValidator.validate (some (pyLowerString s)))
    ∧ (CFIValidatorEnhanced.validate (some s)
        = CFIValidatorEnhanced.validate (some (pyUpperString s))
      ∧ CFIValidatorEnhanced.validate (some s)
        = CFIValidatorEnhanced.validate (some (pyLowerString s))) := by
  refine ⟨⟨?_, ?_⟩, ?_, ?_⟩
  · exact validate_congr s (pyUpperString s) (pyUpperString_length s).symm
      (pyIsAlphaString_pyUpperString s).symm (pyUpper_pyUpperString s).symm
  · exact validate_congr s (pyLowerString s) (pyLowerString_length s).symm
      (pyIsAlphaString_pyLowerString s).symm (pyUpper_pyLowerString s).symm
  · exact validateE_congr s (pyUpperString s) (pyUpperString_length s).symm
      (pyIsAlphaString_pyUpperString s).symm (pyUpper_pyUpperString s).symm
  · exact validateE_congr s (pyLowerString s) (pyLowerString_length s).symm
      (pyIsAlphaString_pyLowerString s).symm (pyUpper_pyLowerString s).symm

/-- Witness for C3 at the mixed-case code eSvNfB. -/
theorem C3_case_insensitive_witness :
    CFIValidator.validate (some "eSvNfB")
      = CFIValidator.validate (some (pyUpperString "eSvNfB")) :=
  ((C3_case_insensitive "eSvNfB" (by decide) (by decide)).1).1

/-- C2 counterexample: on the empty string (length 0, hence length not 6)
the compact validate returns the wrong-type message, not the
invalid-length message the claim requires. -/
theorem C2_counterexample :
    CFIValidator.validate (some "") ≠ (false, lengthMsg)
    ∧ CFIValidator.validate (some "") = (false, strTypeMsg)
    ∧ (CFIValidatorEnhanced.validate (some "")).2.1 = strTypeMsg := by
  refine ⟨by decide, by decide, by decide⟩

/-- C2 amended: for every non-empty string whose length is not 6, both
validators return the invalid-length outcome with the message that a CFI
code must be exactly 6 characters; the empty string instead takes the
wrong-type branch. -/
theorem C2_invalid_length (s : String) (h0 : s.length ≠ 0) (h6 : s.length ≠ 6) :
    CFIValidator.validate (some s) = (false, lengthMsg)
    ∧ CFIValidatorEnhanced.validate (some s)
        = (false, lengthMsg, CFIValidatorEnhanced.initInfo) := by
  constructor
  · simp [CFIValidator.validate, h0, h6]
  · simp [CFIValidatorEnhanced.validate, h0, h6]

/-- Witness for C2 at a length-4 string. -/
theorem C2_invalid_length_witness :
    CFIValidator.validate (some "ABCD") = (false, lengthMsg) :=
  (C2_invalid_length "ABCD" (by decide) (by decide)).1

/-- C6: the code ESVNFB is valid; the success message names the category
description Equities and the group description Shares, and the detailed
decomposition gives position 3 the meaning Voting, position 4 Free,
position 5 Fully paid and position 6 Bearer. -/
theorem C6_ESVNFB :
    CFIValidator.validate (some "ESVNFB") = (true, validMsg "Equities" "Shares")
    ∧ (CFIValidatorEnhanced.validate (some "ESVNFB")).1 = true
    ∧ (CFIValidatorEnhanced.validate (some "ESVNFB")).2.1 = validMsg "Equities" "Shares"
    ∧ ((CFIValidatorEnhanced.validate (some "ESVNFB")).2.2 3).meaning = some "Voting"
    ∧ ((CFIValidatorEnhanced.validate (some "ESVNFB")).2.2 4).meaning = some "Free"
    ∧ ((CFIValidatorEnhanced.validate (some "ESVNFB")).2.2 5).meaning = some "Fully paid"
    ∧ ((CFIValidatorEnhanced.validate (some "ESVNFB")).2.2 6).meaning = some "Bearer" := by
  refine ⟨by decide, by decide, by decide, by decide, by decide, by decide, by decide⟩

/-- C7 counterexample: the category Z is not registered, yet
get_position_options at position 2 returns the empty mapping — a normal
value of the same type as real data — rather than any typed
unknown-category failure (the function has no failure outcome at all). -/
theorem C7_counterexample :
    CFIValidator.CATEGORIES.lookup 'Z' = none
    ∧ CFIValidatorEnhanced.get_position_options (some 'Z') none 2 = [] := by
  refine ⟨by decide, by decide⟩

/-- C7 amended: for every unregistered category, get_position_options at
position 2 returns the empty mapping, signalling the unknown category only
through this data-like default and never through a typed failure. -/
theorem C7_empty_default (c : Char) (g : Option Char)
    (h : CFIValidator.CATEGORIES.lookup c = none) :
    CFIValidatorEnhanced.get_position_options (some c) g 2 = [] := by
  have hreg : CFIValidatorEnhanced.categoryRegistered (some c) = false := by
    simp [CFIValidatorEnhanced.categoryRegistered, CFIValidatorEnhanced.CATEGORIES, h]
  delta CFIValidatorEnhanced.get_position_options
  rw [hreg]
  simp

/-- Witness for C7 at the category Z. -/
theorem C7_empty_default_witness :
    CFIValidatorEnhanced.get_position_options (some 'Z') none 2 = [] :=
  C7_empty_default 'Z' none (by decide)

section LoopShape

/-- Every failure of the compact attribute loop for a defined pair is
either a strict invalid-attribute rejection at some scanned position whose
rule set exists and misses the character, or the per-position alphabetic
fallback rejection at a scanned position without a rule set. -/
theorem checkAttrs_some {rules : Dict Nat (Dict Char String)} {cg : String}
    {code : List Char} :
    ∀ {ps : List Nat} {m : String}, CFIValidator.checkAttrs rules cg code ps = some m →
    (∃ p ∈ ps, ∃ opts, rules.lookup (p + 1) = some opts
       ∧ opts.lookup (code.getD p ' ') = none
       ∧ m = mkInvalidAttrMsg (code.getD p ' ') (p + 1) cg opts)
    ∨ (∃ p ∈ ps, rules.lookup (p + 1) = none ∧ m = mkAlphaPosMsg (p + 1)) := by
  intro ps
  induction ps with
  | nil => intro m h; simp [CFIValidator.checkAttrs] at h
  | cons p rest ih =>
    intro m h
    simp only [CFIValidator.checkAttrs] at h
    cases hl : List.lookup (p + 1) rules with
    | some opts =>
      rw [hl] at h
      dsimp only at h
      by_cases ho : (List.lookup (code.getD p ' ') opts).isSome
      · rw [if_pos ho] at h
        rcases ih h with ⟨q, hq, o, h1, h2, h3⟩ | ⟨q, hq, h1, h2⟩
        · exact Or.inl ⟨q, List.mem_cons_of_mem _ hq, o, h1, h2, h3⟩
        · exact Or.inr ⟨q, List.mem_cons_of_mem _ hq, h1, h2⟩
      · rw [if_neg ho] at h
        refine Or.inl ⟨p, List.mem_cons_self _ _, opts, hl, ?_, (Option.some.injEq _ _ ▸ h).symm⟩
        exact Option.not_isSome_iff_eq_none.mp ho
    | none =>
      rw [hl] at h
      dsimp only at h
      by_cases ha : pyIsAlphaChar (code.getD p ' ') = true
      · rw [if_pos ha] at h
        rcases ih h with ⟨q, hq, o, h1, h2, h3⟩ | ⟨q, hq, h1, h2⟩
        · exact Or.inl ⟨q, List.mem_cons_of_mem _ hq, o, h1, h2, h3⟩
        · exact Or.inr ⟨q, List.mem_cons_of_mem _ hq, h1, h2⟩
      · rw [if_neg ha] at h
        exact Or.inr ⟨p, List.mem_cons_self _ _, hl, (Option.some.injEq _ _ ▸ h).symm⟩

/-- Every failure of the compact attribute loop for an undefined pair is
the per-position alphabetic rejection at some scanned position. -/
theorem checkNoRules_some {code : List Char} :
    ∀ {ps : List Nat} {m : String}, CFIValidator.checkNoRules code ps = some m →
    ∃ p ∈ ps, m = mkAlphaPosMsg (p + 1) := by
  intro ps
  induction ps with
  | nil => intro m h; simp [CFIValidator.checkNoRules] at h
  | cons p rest ih =>
    intro m h
    simp only [CFIValidator.checkNoRules] at h
    by_cases ha : pyIsAlphaChar (code.getD p ' ') = true
    · rw [if_pos ha] at h
      rcases ih h with ⟨q, hq, h1⟩
      exact ⟨q, List.mem_cons_of_mem _ hq, h1⟩
    · rw [if_neg ha] at h
      exact ⟨p, List.mem_cons_self _ _, (Option.some.injEq _ _ ▸ h).symm⟩

end LoopShape

section Agreement

/-- The error component of the enhanced attribute loop equals the result of
the compact attribute loop, position by position. -/
theorem checkAttrsE_fst (rules : Dict Nat (Dict Char String)) (cg : String)
    (code : List Char) :
    ∀ (ps : List Nat) (I : CFIValidatorEnhanced.Info),
      (CFIValidatorEnhanced.checkAttrs rules cg code ps I).1
        = CFIValidator.checkAttrs rules cg code ps := by
  intro ps
  induction ps with
  | nil => intro I; rfl
  | cons p rest ih =>
    intro I
    simp only [CFIValidatorEnhanced.checkAttrs, CFIValidator.checkAttrs]
    cases hl : List.lookup (p + 1) rules with
    | some opts =>
      dsimp only
      cases ho : List.lookup (code.getD p ' ') opts with
      | some meaning =>
        dsimp only [Option.isSome]
        rw [if_pos rfl]
        exact ih _
      | none =>
        dsimp only [Option.isSome]
        rw [if_neg (by simp)]
    | none =>
      dsimp only
      by_cases ha : pyIsAlphaChar (code.getD p ' ') = true
      · rw [if_pos ha, if_pos ha]
        exact ih _
      · rw [if_neg ha, if_neg ha]

/-- The error component of the enhanced no-rules loop equals the result of
the compact no-rules loop, position by position. -/
theorem checkNoRulesE_fst (code : List Char) :
    ∀ (ps : List Nat) (I : CFIValidatorEnhanced.Info),
      (CFIValidatorEnhanced.checkNoRules code ps I).1
        = CFIValidator.checkNoRules code ps := by
  intro ps
  induction ps with
  | nil => intro I; rfl
  | cons p rest ih =>
    intro I
    simp only [CFIValidatorEnhanced.checkNoRules, CFIValidator.checkNoRules]
    by_cases ha : pyIsAlphaChar (code.getD p ' ') = true
    · rw [if_pos ha, if_pos ha]
      exact ih _
    · rw [if_neg ha, if_neg ha]

/-- The boolean and the message of the enhanced positional phase equal the
result of the compact positional phase. -/
theorem afterBasic_agrees (code : List Char) (I : CFIValidatorEnhanced.Info) :
    CFIValidator.afterBasic code
      = ((CFIValidatorEnhanced.afterBasic code I).1,
         (CFIValidatorEnhanced.afterBasic code I).2.1) := by
  simp only [CFIValidator.afterBasic, CFIValidatorEnhanced.afterBasic,
    CFIValidatorEnhanced.CATEGORIES, CFIValidatorEnhanced.GROUPS,
    CFIValidatorEnhanced.ATTRIBUTES]
  cases hcat : List.lookup (code.getD 0 ' ') CFIValidator.CATEGORIES with
  | none => rfl
  | some catDesc =>
    dsimp only
    cases hgrp : List.lookup (code.getD 1 ' ')
        ((List.lookup (code.getD 0 ' ') CFIValidator.GROUPS).getD []) with
    | none => rfl
    | some grpDesc =>
      dsimp only
      cases hA : List.lookup (String.mk [code.getD 0 ' ', code.getD 1 ' '])
          CFIValidator.ATTRIBUTES with
      | some rules =>
        dsimp only
        rw [← checkAttrsE_fst rules (String.mk [code.getD 0 ' ', code.getD 1 ' ']) code [2, 3, 4, 5]]
        cases CFIValidatorEnhanced.checkAttrs rules
            (String.mk [code.getD 0 ' ', code.getD 1 ' ']) code [2, 3, 4, 5] _ with
        | mk err I5 => cases err <;> rfl
      | none =>
        dsimp only
        rw [← checkNoRulesE_fst code [2, 3, 4, 5]]
        cases CFIValidatorEnhanced.checkNoRules code [2, 3, 4, 5] _ with
        | mk err I5 => cases err <;> rfl

/-- The pair returned by the compact validate equals the first two
components of the triple returned by the enhanced validate, on every
input. -/
theorem validate_agrees (i : Option String) :
    CFIValidator.validate i
      = ((CFIValidatorEnhanced.validate i).1, (CFIValidatorEnhanced.validate i).2.1) := by
  cases i with
  | none => rfl
  | some s =>
    simp only [CFIValidator.validate, CFIValidatorEnhanced.validate]
    by_cases h0 : s.length = 0
    · rw [if_pos h0, if_pos h0]
    · rw [if_neg h0, if_neg h0]
      by_cases h6 : s.length ≠ 6
      · rw [if_pos h6, if_pos h6]
      · rw [if_neg h6, if_neg h6]
        by_cases ha : pyIsAlphaString s = false
        · rw [if_pos ha, if_pos ha]
        · rw [if_neg ha, if_neg ha]
          exact afterBasic_agrees (pyUpper s.data) CFIValidatorEnhanced.initInfo

end Agreement

/-- C5: on every input — a non-string value or any string — the compact
validator and the enhanced validator agree: the boolean-message pair of
the compact validate equals the first two components of the enhanced
validate. -/
theorem C5_compact_detailed_agree (i : Option String) :
    CFIValidator.validate i
      = ((CFIValidatorEnhanced.validate i).1, (CFIValidatorEnhanced.validate i).2.1) :=
  validate_agrees i

section Shape

/-- Past the three preconditions, the compact validate is the positional
phase on the uppercased character list. -/
theorem validate_eq_afterBasic (s : String) (h0 : ¬ s.length = 0)
    (h6 : ¬ s.length ≠ 6) (ha : ¬ pyIsAlphaString s = false) :
    CFIValidator.validate (some s) = CFIValidator.afterBasic (pyUpper s.data) := by
  simp only [CFIValidator.validate]
  rw [if_neg h0, if_neg h6, if_neg ha]

/-- The positional phase returns the success pair or one of the four
positional failure messages, the invalid-attribute one always built from a
rule set present in the ATTRIBUTES table and missing the rejected
character. -/
theorem afterBasic_shape (code : List Char) :
    (∃ cd gd, CFIValidator.afterBasic code = (true, validMsg cd gd))
    ∨ (∃ c, CFIValidator.afterBasic code = (false, mkCatMsg c))
    ∨ (∃ g c d, CFIValidator.afterBasic code = (false, mkGroupMsg g c d))
    ∨ (∃ c p cg rules opts, CFIValidator.ATTRIBUTES.lookup cg = some rules
        ∧ rules.lookup p = some opts ∧ opts.lookup c = none
        ∧ CFIValidator.afterBasic code = (false, mkInvalidAttrMsg c p cg opts))
    ∨ (∃ p, CFIValidator.afterBasic code = (false, mkAlphaPosMsg p)) := by
  simp only [CFIValidator.afterBasic]
  cases hcat : List.lookup (code.getD 0 ' ') CFIValidator.CATEGORIES with
  | none =>
    exact Or.inr (Or.inl ⟨code.getD 0 ' ', rfl⟩)
  | some catDesc =>
    dsimp only
    cases hgrp : List.lookup (code.getD 1 ' ')
        ((List.lookup (code.getD 0 ' ') CFIValidator.GROUPS).getD []) with
    | none =>
      exact Or.inr (Or.inr (Or.inl ⟨code.getD 1 ' ', code.getD 0 ' ', _, rfl⟩))
    | some grpDesc =>
      dsimp only
      cases hA : List.lookup (String.mk [code.getD 0 ' ', code.getD 1 ' '])
          CFIValidator.ATTRIBUTES with
      | some rules =>
        dsimp only
        cases hc : CFIValidator.checkAttrs rules
            (String.mk [code.getD 0 ' ', code.getD 1 ' ']) code [2, 3, 4, 5] with
        | some m =>
          rcases checkAttrs_some hc with ⟨p, _, opts, h1, h2, h3⟩ | ⟨p, _, _, h2⟩
          · exact Or.inr (Or.inr (Or.inr (Or.inl
              ⟨code.getD p ' ', p + 1, _, rules, opts, hA, h1, h2, by rw [h3]⟩)))
          · exact Or.inr (Or.inr (Or.inr (Or.inr ⟨p + 1, by rw [h2]⟩)))
        | none => exact Or.inl ⟨catDesc, grpDesc, rfl⟩
      | none =>
        dsimp only
        cases hc : CFIValidator.checkNoRules code [2, 3, 4, 5] with
        | some m =>
          rcases checkNoRules_some hc with ⟨p, _, h2⟩
          exact Or.inr (Or.inr (Or.inr (Or.inr ⟨p + 1, by rw [h2]⟩)))
        | none => exact Or.inl ⟨catDesc, grpDesc, rfl⟩

/-- Every outcome of the compact validate is the success pair or carries
one of the message forms of the error taxonomy, the invalid-attribute one
always built from a rule set present in the ATTRIBUTES table and missing
the rejected character. -/
theorem validate_shape (i : Option String) :
    (∃ cd gd, CFIValidator.validate i = (true, validMsg cd gd))
    ∨ CFIValidator.validate i = (false, strTypeMsg)
    ∨ CFIValidator.validate i = (false, lengthMsg)
    ∨ CFIValidator.validate i = (false, notAlphaMsg)
    ∨ (∃ c, CFIValidator.validate i = (false, mkCatMsg c))
    ∨ (∃ g c d, CFIValidator.validate i = (false, mkGroupMsg g c d))
    ∨ (∃ c p cg rules opts, CFIValidator.ATTRIBUTES.lookup cg = some rules
        ∧ rules.lookup p = some opts ∧ opts.lookup c = none
        ∧ CFIValidator.validate i = (false, mkInvalidAttrMsg c p cg opts))
    ∨ (∃ p, CFIValidator.validate i = (false, mkAlphaPosMsg p)) := by
  cases i with
  | none => exact Or.inr (Or.inl rfl)
  | some s =>
    by_cases h0 : s.length = 0
    · refine Or.inr (Or.inl ?_)
      simp only [CFIValidator.validate]
      rw [if_pos h0]
    · by_cases h6 : s.length ≠ 6
      · refine Or.inr (Or.inr (Or.inl ?_))
        simp only [CFIValidator.validate]
        rw [if_neg h0, if_pos h6]
      · by_cases ha : pyIsAlphaString s = false
        · refine Or.inr (Or.inr (Or.inr (Or.inl ?_)))
          simp only [CFIValidator.validate]
          rw [if_neg h0, if_neg h6, if_pos ha]
        · rw [validate_eq_afterBasic s h0 h6 ha]
          rcases afterBasic_shape (pyUpper s.data) with h | h | h | h | h
          · exact Or.inl h
          · exact Or.inr (Or.inr (Or.inr (Or.inr (Or.inl h))))
          · exact Or.inr (Or.inr (Or.inr (Or.inr (Or.inr (Or.inl h)))))
          · exact Or.inr (Or.inr (Or.inr (Or.inr (Or.inr (Or.inr (Or.inl h))))))
          · exact Or.inr (Or.inr (Or.inr (Or.inr (Or.inr (Or.inr (Or.inr h))))))

end Shape

/-- C8: both validators are total functions of their input — intrinsic to
the embedding as Lean functions, so no exception or abort is possible —
and on every input, string or not, the result is either the success
outcome or a message of one of the six domain error kinds, returned as an
ordinary value. -/
theorem C8_total_typed_outcomes (i : Option String) :
    ((CFIValidator.validate i).1 = true
      ∨ ∃ k, messageOfKind k (CFIValidator.validate i).2)
    ∧ ((CFIValidatorEnhanced.validate i).1 = true
      ∨ ∃ k, messageOfKind k (CFIValidatorEnhanced.validate i).2.1) := by
  have hagree := validate_agrees i
  have hshape := validate_shape i
  have hc : (CFIValidator.validate i).1 = true
      ∨ ∃ k, messageOfKind k (CFIValidator.validate i).2 := by
    rcases hshape with ⟨cd, gd, h⟩ | h | h | h | ⟨c, h⟩ | ⟨g, c, d, h⟩
        | ⟨c, p, cg, rules, opts, _, _, _, h⟩ | ⟨p, h⟩
    · exact Or.inl (by rw [h])
    · exact Or.inr ⟨.emptyOrWrongType, by rw [h]; rfl⟩
    · exact Or.inr ⟨.invalidLength, by rw [h]; rfl⟩
    · exact Or.inr ⟨.nonAlphabetic, Or.inl (by rw [h])⟩
    · exact Or.inr ⟨.unknownCategory, ⟨c, by rw [h]⟩⟩
    · exact Or.inr ⟨.unknownGroup, ⟨g, c, d, by rw [h]⟩⟩
    · exact Or.inr ⟨.invalidAttribute, ⟨c, p, cg, opts, by rw [h]⟩⟩
    · exact Or.inr ⟨.nonAlphabetic, Or.inr ⟨p, by rw [h]⟩⟩
  refine ⟨hc, ?_⟩
  have h1 : (CFIValidatorEnhanced.validate i).1 = (CFIValidator.validate i).1 := by
    rw [hagree]
  have h2 : (CFIValidatorEnhanced.validate i).2.1 = (CFIValidator.validate i).2 := by
    rw [hagree]
  rw [h1, h2]
  exact hc

section MessageFacts

/-- Two strings differing at one character position differ. -/
theorem String.ne_of_getD_ne (s t : String) (k : Nat)
    (h : s.data.getD k ' ' ≠ t.data.getD k ' ') : s ≠ t := by
  intro he
  exact h (he ▸ rfl)

/-- A successful key lookup in an association list exhibits a member. -/
theorem lookup_mem {α β : Type} [BEq α] [LawfulBEq α]
    {l : List (α × β)} {a : α} {b : β} (h : l.lookup a = some b) : (a, b) ∈ l := by
  induction l with
  | nil => simp [List.lookup] at h
  | cons kv t ih =>
    rw [List.lookup] at h
    by_cases hk : a == kv.1
    · rcases kv with ⟨k, v⟩
      simp only [hk] at h
      rw [eq_of_beq hk]
      simp only [Option.some.injEq] at h
      rw [h]
      exact List.mem_cons_self _ _
    · rcases kv with ⟨k, v⟩
      simp only [Bool.not_eq_true] at hk
      simp only [hk] at h
      exact List.mem_cons_of_mem _ (ih h)

/-- The rejected character sits at index 19 of the invalid-attribute
message, after the fixed 19-character head. -/
theorem mkInvalidAttrMsg_char (c : Char) (p : Nat) (cg : String)
    (opts : Dict Char String) :
    (mkInvalidAttrMsg c p cg opts).data.getD 19 ' ' = c := by
  have hd : (mkInvalidAttrMsg c p cg opts).data
      = "Invalid attribute '".data
        ++ (c :: (("' at position " ++ toString p ++ " for " ++ cg
              ++ ". Valid options: " ++ joinKeysC opts).data)) := by
    simp [mkInvalidAttrMsg, String.data_append, String.singleton]
  rw [hd, List.getD_append_right _ _ _ _ (by decide)]
  have h19 : ("Invalid attribute '".data).length = 19 := by decide
  rw [h19]
  simp

/-- The head character of the invalid-attribute message. -/
theorem mkInvalidAttrMsg_head (c : Char) (p : Nat) (cg : String)
    (opts : Dict Char String) :
    (mkInvalidAttrMsg c p cg opts).data.getD 0 ' ' = 'I' := by
  have hd : (mkInvalidAttrMsg c p cg opts).data
      = "Invalid attribute '".data
        ++ (c :: (("' at position " ++ toString p ++ " for " ++ cg
              ++ ". Valid options: " ++ joinKeysC opts).data)) := by
    simp [mkInvalidAttrMsg, String.data_append, String.singleton]
  rw [hd, List.getD_append _ _ _ _ (by decide)]
  decide

/-- The character at index 8 of the invalid-attribute message. -/
theorem mkInvalidAttrMsg_idx8 (c : Char) (p : Nat) (cg : String)
    (opts : Dict Char String) :
    (mkInvalidAttrMsg c p cg opts).data.getD 8 ' ' = 'a' := by
  have hd : (mkInvalidAttrMsg c p cg opts).data
      = "Invalid attribute '".data
        ++ (c :: (("' at position " ++ toString p ++ " for " ++ cg
              ++ ". Valid options: " ++ joinKeysC opts).data)) := by
    simp [mkInvalidAttrMsg, String.data_append, String.singleton]
  rw [hd, List.getD_append _ _ _ _ (by decide)]
  decide

/-- The character at index 8 of the invalid-category message. -/
theorem mkCatMsg_idx8 (c : Char) : (mkCatMsg c).data.getD 8 ' ' = 'c' := by
  have hd : (mkCatMsg c).data
      = "Invalid category '".data
        ++ (c :: (("'. Must be one of: " ++ joinKeysC CFIValidator.CATEGORIES).data)) := by
    simp [mkCatMsg, String.data_append, String.singleton]
  rw [hd, List.getD_append _ _ _ _ (by decide)]
  decide

/-- The character at index 8 of the invalid-group message. -/
theorem mkGroupMsg_idx8 (g c : Char) (d : Dict Char String) :
    (mkGroupMsg g c d).data.getD 8 ' ' = 'g' := by
  have hd : (mkGroupMsg g c d).data
      = "Invalid group '".data
        ++ (g :: (("' for category '" ++ String.singleton c ++ "'. Valid groups: "
            ++ joinKeysC d).data)) := by
    simp [mkGroupMsg, String.data_append, String.singleton]
  rw [hd, List.getD_append _ _ _ _ (by decide)]
  decide

/-- The head character of the per-position alphabetic message. -/
theorem mkAlphaPosMsg_head (p : Nat) : (mkAlphaPosMsg p).data.getD 0 ' ' = 'C' := by
  have hd : (mkAlphaPosMsg p).data
      = "Character at position ".data ++ (toString p ++ " must be alphabetic").data := by
    simp [mkAlphaPosMsg, String.data_append]
  rw [hd, List.getD_append _ _ _ _ (by decide)]
  decide

/-- In every rule set reachable from the ATTRIBUTES table, the character X
is among the keys. -/
theorem X_in_defined {cg : String} {rules : Dict Nat (Dict Char String)}
    {p : Nat} {opts : Dict Char String}
    (hA : CFIValidator.ATTRIBUTES.lookup cg = some rules)
    (hp : rules.lookup p = some opts) :
    (opts.lookup 'X').isSome = true := by
  have hall : CFIValidator.ATTRIBUTES.all
      (fun kv => kv.2.all (fun pv => (pv.2.lookup 'X').isSome)) = true := by decide
  have h1 := List.all_eq_true.mp hall _ (lookup_mem hA)
  exact List.all_eq_true.mp h1 _ (lookup_mem hp)

end MessageFacts

/-- C1: in the ATTRIBUTES table, every rule set of every defined
category-group pair lists the character X among its legal options; as a
consequence, no outcome of validate — on any input whatsoever — is an
invalid-attribute failure whose rejected character is X. -/
theorem C1_X_always_legal :
    (∀ cg rules p opts,
        CFIValidator.ATTRIBUTES.lookup cg = some rules →
        rules.lookup p = some opts →
        (opts.lookup 'X').isSome = true)
    ∧ (∀ i p cg opts,
        CFIValidator.validate i ≠ (false, mkInvalidAttrMsg 'X' p cg opts)) := by
  constructor
  · intro cg rules p opts hA hp
    exact X_in_defined hA hp
  · intro i p cg opts he
    rcases validate_shape i with ⟨cd, gd, h⟩ | h | h | h | ⟨c, h⟩ | ⟨g, c, d, h⟩
        | ⟨c, q, cg2, rules2, opts2, hA, hq, hnone, h⟩ | ⟨q, h⟩
    · rw [he] at h
      exact absurd (congrArg Prod.fst h) (by simp)
    · have hm : mkInvalidAttrMsg 'X' p cg opts = strTypeMsg :=
        congrArg Prod.snd (he.symm.trans h)
      refine String.ne_of_getD_ne _ _ 0 ?_ hm
      rw [mkInvalidAttrMsg_head]
      decide
    · have hm : mkInvalidAttrMsg 'X' p cg opts = lengthMsg :=
        congrArg Prod.snd (he.symm.trans h)
      refine String.ne_of_getD_ne _ _ 0 ?_ hm
      rw [mkInvalidAttrMsg_head]
      decide
    · have hm : mkInvalidAttrMsg 'X' p cg opts = notAlphaMsg :=
        congrArg Prod.snd (he.symm.trans h)
      refine String.ne_of_getD_ne _ _ 0 ?_ hm
      rw [mkInvalidAttrMsg_head]
      decide
    · have hm : mkInvalidAttrMsg 'X' p cg opts = mkCatMsg c :=
        congrArg Prod.snd (he.symm.trans h)
      refine String.ne_of_getD_ne _ _ 8 ?_ hm
      rw [mkInvalidAttrMsg_idx8, mkCatMsg_idx8]
      decide
    · have hm : mkInvalidAttrMsg 'X' p cg opts = mkGroupMsg g c d :=
        congrArg Prod.snd (he.symm.trans h)
      refine String.ne_of_getD_ne _ _ 8 ?_ hm
      rw [mkInvalidAttrMsg_idx8, mkGroupMsg_idx8]
      decide
    · have hm : mkInvalidAttrMsg c q cg2 opts2 = mkInvalidAttrMsg 'X' p cg opts :=
        congrArg Prod.snd (h.symm.trans he)
      have hc : c = 'X' := by
        have h1 := mkInvalidAttrMsg_char c q cg2 opts2
        have h2 := mkInvalidAttrMsg_char 'X' p cg opts
        rw [hm] at h1
        rw [h2] at h1
        exact h1.symm
      rw [hc] at hnone
      have := X_in_defined hA hq
      rw [hnone] at this
      exact absurd this (by decide)
    · have hm : mkInvalidAttrMsg 'X' p cg opts = mkAlphaPosMsg q :=
        congrArg Prod.snd (he.symm.trans h)
      refine String.ne_of_getD_ne _ _ 0 ?_ hm
      rw [mkInvalidAttrMsg_head, mkAlphaPosMsg_head]
      decide

/-- Witness for C1 at the pair ES and position 3. -/
theorem C1_X_always_legal_witness :
    (((((CFIValidator.ATTRIBUTES.lookup "ES").getD []).lookup 3).getD []).lookup 'X').isSome
      = true
    ∧ CFIValidator.validate (some "ESVNFB")
        ≠ (false, mkInvalidAttrMsg 'X' 3 "ES"
            ((((CFIValidator.ATTRIBUTES.lookup "ES").getD []).lookup 3).getD [])) := by
  constructor
  · exact C1_X_always_legal.1 "ES" ((CFIValidator.ATTRIBUTES.lookup "ES").getD []) 3
      ((((CFIValidator.ATTRIBUTES.lookup "ES").getD []).lookup 3).getD [])
      (by decide) (by decide)
  · exact C1_X_always_legal.2 (some "ESVNFB") 3 "ES"
      ((((CFIValidator.ATTRIBUTES.lookup "ES").getD []).lookup 3).getD [])

/-- C10: every category-group key of the ATTRIBUTES table defines a
non-empty option set at each of the four positions 3, 4, 5 and 6;
consequently the per-position fallback branch of the attribute loop for a
defined pair is unreachable: at every position the loop scans, the rule
lookup guarding that branch succeeds. -/
theorem C10_defined_pairs_complete :
    (∀ kv ∈ CFIValidator.ATTRIBUTES, ∀ p ∈ ([3, 4, 5, 6] : List Nat),
        ∃ opts, kv.2.lookup p = some opts ∧ opts ≠ [])
    ∧ (∀ cg rules, CFIValidator.ATTRIBUTES.lookup cg = some rules →
        ∀ p ∈ ([2, 3, 4, 5] : List Nat), (rules.lookup (p + 1)).isSome = true) := by
  have hall : CFIValidator.ATTRIBUTES.all
      (fun kv => ([3, 4, 5, 6] : List Nat).all
        (fun p => (kv.2.lookup p).isSome && !((kv.2.lookup p).getD []).isEmpty)) = true := by
    decide
  constructor
  · intro kv hkv p hp
    have h1 := List.all_eq_true.mp (List.all_eq_true.mp hall kv hkv) p hp
    rw [Bool.and_eq_true] at h1
    obtain ⟨opts, hopts⟩ := Option.isSome_iff_exists.mp h1.1
    refine ⟨opts, hopts, ?_⟩
    intro hnil
    rcases h1 with ⟨_, h2⟩
    rw [hopts, hnil] at h2
    simp at h2
  · intro cg rules hA p hp
    have hkv := lookup_mem hA
    have hmem : p + 1 ∈ ([3, 4, 5, 6] : List Nat) := by
      simp only [List.mem_cons, List.not_mem_nil, or_false] at hp
      rcases hp with rfl | rfl | rfl | rfl <;> decide
    have h1 := List.all_eq_true.mp (List.all_eq_true.mp hall (cg, rules) hkv) (p + 1) hmem
    rw [Bool.and_eq_true] at h1
    exact h1.1

/-- Witness for C10 at the pair ES: position 3 has a non-empty rule set,
and the loop guard succeeds at the first scanned position. -/
theorem C10_defined_pairs_complete_witness :
    (∃ opts, (("ES", (CFIValidator.ATTRIBUTES.lookup "ES").getD [])
        : String × Dict Nat (Dict Char String)).2.lookup 3 = some opts ∧ opts ≠ [])
    ∧ ((((CFIValidator.ATTRIBUTES.lookup "ES").getD []).lookup (2 + 1)).isSome = true) := by
  constructor
  · exact C10_defined_pairs_complete.1
      ("ES", (CFIValidator.ATTRIBUTES.lookup "ES").getD []) (by decide) 3 (by decide)
  · exact C10_defined_pairs_complete.2 "ES"
      ((CFIValidator.ATTRIBUTES.lookup "ES").getD []) (by decide) 2 (by decide)

/-- C9 counterexample: ZZZZZZ is rejected by validate (unknown category),
yet the display helper of cfi_validator.py renders per-position data for
it — the category line with an Unknown placeholder and bare attribute
lines — with no rejection and no re-validation. -/
theorem C9_counterexample :
    (CFIValidator.validate (some "ZZZZZZ")).1 = false
    ∧ "Category (1st): Z - Unknown" ∈ CFIValidator.display_cfi_details "ZZZZZZ"
    ∧ "Attribute 3: Z" ∈ CFIValidator.display_cfi_details "ZZZZZZ" := by
  refine ⟨by decide, by decide, by decide⟩

/-- C9 amended: the enhanced display helper of cfi_validator_test.py does
re-validate: on any string the enhanced validate rejects, it renders
exactly one rejection line carrying the failure message and no position
data at all. -/
theorem C9_enhanced_rejects (s : String)
    (h : (CFIValidatorEnhanced.validate (some s)).1 = false) :
    CFIValidatorEnhanced.display_cfi_details s
      = ["\nâœ— Invalid CFI code: " ++ (CFIValidatorEnhanced.validate (some s)).2.1] := by
  have hv : CFIValidatorEnhanced.validate (some s)
      = (false, (CFIValidatorEnhanced.validate (some s)).2.1,
         (CFIValidatorEnhanced.validate (some s)).2.2) := by
    rcases hval : CFIValidatorEnhanced.validate (some s) with ⟨b, m, I⟩
    rw [hval] at h
    simp only at h
    rw [h]
  simp only [CFIValidatorEnhanced.display_cfi_details]
  rw [hv]
  simp

/-- Witness for C9 at the invalid code ZZZZZZ. -/
theorem C9_enhanced_rejects_witness :
    CFIValidatorEnhanced.display_cfi_details "ZZZZZZ"
      = ["\nâœ— Invalid CFI code: "
          ++ (CFIValidatorEnhanced.validate (some "ZZZZZZ")).2.1] :=
  C9_enhanced_rejects "ZZZZZZ" (by decide)

section LoopInvariants

open CFIValidatorEnhanced

/-- Successor membership in the shifted position list. -/
theorem succ_mem_map_iff {p : Nat} {l : List Nat} :
    (p + 1) ∈ l.map (· + 1) ↔ p ∈ l := by
  simp

/-- The enhanced attribute loop touches only the keys of its scanned
positions. -/
theorem checkAttrsE_frame (rules : Dict Nat (Dict Char String)) (cg : String)
    (code : List Char) :
    ∀ (ps : List Nat) (I : Info) (j : Nat), j ∉ ps.map (· + 1) →
      (CFIValidatorEnhanced.checkAttrs rules cg code ps I).2 j = I j := by
  intro ps
  induction ps with
  | nil => intro I j _; rfl
  | cons p rest ih =>
    intro I j hj
    rw [List.map_cons, List.mem_cons] at hj
    push_neg at hj
    obtain ⟨hj1, hj2⟩ := hj
    simp only [CFIValidatorEnhanced.checkAttrs]
    cases hl : List.lookup (p + 1) rules with
    | some opts =>
      dsimp only
      cases ho : List.lookup (code.getD p ' ') opts with
      | some meaning =>
        rw [ih _ j hj2]
        simp [setInfo, hj1]
      | none =>
        simp [setInfo, hj1]
    | none =>
      dsimp only
      by_cases ha : pyIsAlphaChar (code.getD p ' ') = true
      · rw [if_pos ha, ih _ j hj2]
        simp [setInfo, hj1]
      · rw [if_neg ha]
        simp [setInfo, hj1]

/-- When the enhanced attribute loop succeeds, every scanned position is
resolved and accepted. -/
theorem checkAttrsE_none (rules : Dict Nat (Dict Char String)) (cg : String)
    (code : List Char) :
    ∀ (ps : List Nat) (I : Info), ps.Pairwise (· < ·) →
      (CFIValidatorEnhanced.checkAttrs rules cg code ps I).1 = none →
      ∀ p ∈ ps, resolvedOK ((CFIValidatorEnhanced.checkAttrs rules cg code ps I).2 (p + 1)) := by
  intro ps
  induction ps with
  | nil => intro I _ _ p hp; cases hp
  | cons p rest ih =>
    intro I hpw hres q hq
    have hninr : p ∉ rest := fun hmem =>
      absurd ((List.pairwise_cons.mp hpw).1 p hmem) (lt_irrefl p)
    have hrestpw := (List.pairwise_cons.mp hpw).2
    simp only [CFIValidatorEnhanced.checkAttrs] at hres ⊢
    cases hl : List.lookup (p + 1) rules with
    | some opts =>
      rw [hl] at hres
      dsimp only at hres ⊢
      cases ho : List.lookup (code.getD p ' ') opts with
      | some meaning =>
        rw [ho] at hres
        dsimp only at hres ⊢
        rcases List.mem_cons.mp hq with rfl | hq2
        · rw [checkAttrsE_frame rules cg code rest _ (q + 1)
            (fun hmem => hninr (succ_mem_map_iff.mp hmem))]
          simp [setInfo, resolvedOK]
        · exact ih _ hrestpw hres q hq2
      | none =>
        rw [ho] at hres
        dsimp only at hres
        cases hres
    | none =>
      rw [hl] at hres
      dsimp only at hres ⊢
      by_cases ha : pyIsAlphaChar (code.getD p ' ') = true
      · rw [if_pos ha] at hres ⊢
        rcases List.mem_cons.mp hq with rfl | hq2
        · rw [checkAttrsE_frame rules cg code rest _ (q + 1)
            (fun hmem => hninr (succ_mem_map_iff.mp hmem))]
          simp [setInfo, resolvedOK]
        · exact ih _ hrestpw hres q hq2
      · rw [if_neg ha] at hres
        cases hres

/-- When the enhanced attribute loop fails, some scanned position carries
the failure, every earlier scanned position is resolved and accepted, and
every later scanned position is untouched. -/
theorem checkAttrsE_some (rules : Dict Nat (Dict Char String)) (cg : String)
    (code : List Char) :
    ∀ (ps : List Nat) (I : Info) (m : String), ps.Pairwise (· < ·) →
      (CFIValidatorEnhanced.checkAttrs rules cg code ps I).1 = some m →
      ∃ p ∈ ps, failedAt ((CFIValidatorEnhanced.checkAttrs rules cg code ps I).2 (p + 1))
        ∧ (∀ q ∈ ps, q < p →
            resolvedOK ((CFIValidatorEnhanced.checkAttrs rules cg code ps I).2 (q + 1)))
        ∧ (∀ q ∈ ps, p < q →
            (CFIValidatorEnhanced.checkAttrs rules cg code ps I).2 (q + 1) = I (q + 1)) := by
  intro ps
  induction ps with
  | nil => intro I m _ hres; cases hres
  | cons p rest ih =>
    intro I m hpw hres
    have hlt : ∀ q ∈ rest, p < q := (List.pairwise_cons.mp hpw).1
    have hninr : p ∉ rest := fun hmem => absurd (hlt p hmem) (lt_irrefl p)
    have hrestpw := (List.pairwise_cons.mp hpw).2
    simp only [CFIValidatorEnhanced.checkAttrs] at hres ⊢
    cases hl : List.lookup (p + 1) rules with
    | some opts =>
      rw [hl] at hres
      dsimp only at hres ⊢
      cases ho : List.lookup (code.getD p ' ') opts with
      | some meaning =>
        rw [ho] at hres
        dsimp only at hres ⊢
        obtain ⟨r, hrmem, hrfail, hrbefore, hrafter⟩ := ih _ m hrestpw hres
        refine ⟨r, List.mem_cons_of_mem _ hrmem, hrfail, ?_, ?_⟩
        · intro q hq hqr
          rcases List.mem_cons.mp hq with rfl | hq2
          · rw [checkAttrsE_frame rules cg code rest _ (q + 1)
              (fun hmem => hninr (succ_mem_map_iff.mp hmem))]
            simp [setInfo, resolvedOK]
          · exact hrbefore q hq2 hqr
        · intro q hq hrq
          rcases List.mem_cons.mp hq with rfl | hq2
          · exact absurd (lt_trans (hlt r hrmem) hrq) (lt_irrefl q)
          · rw [hrafter q hq2 hrq]
            have hqp : q ≠ p := fun he => hninr (he ▸ hq2)
            simp [setInfo, hqp]
      | none =>
        rw [ho] at hres
        dsimp only at hres ⊢
        refine ⟨p, List.mem_cons_self _ _, ?_, ?_, ?_⟩
        · simp [setInfo, failedAt]
        · intro q hq hqp
          rcases List.mem_cons.mp hq with rfl | hq2
          · exact absurd hqp (lt_irrefl q)
          · exact absurd hqp (absurd (hlt q hq2) (by omega))
        · intro q hq hpq
          rcases List.mem_cons.mp hq with rfl | hq2
          · exact absurd hpq (lt_irrefl q)
          · have hqp : q ≠ p := fun he => hninr (he ▸ hq2)
            simp [setInfo, hqp]
    | none =>
      rw [hl] at hres
      dsimp only at hres ⊢
      by_cases ha : pyIsAlphaChar (code.getD p ' ') = true
      · rw [if_pos ha] at hres ⊢
        obtain ⟨r, hrmem, hrfail, hrbefore, hrafter⟩ := ih _ m hrestpw hres
        refine ⟨r, List.mem_cons_of_mem _ hrmem, hrfail, ?_, ?_⟩
        · intro q hq hqr
          rcases List.mem_cons.mp hq with rfl | hq2
          · rw [checkAttrsE_frame rules cg code rest _ (q + 1)
              (fun hmem => hninr (succ_mem_map_iff.mp hmem))]
            simp [setInfo, resolvedOK]
          · exact hrbefore q hq2 hqr
        · intro q hq hrq
          rcases List.mem_cons.mp hq with rfl | hq2
          · exact absurd (lt_trans (hlt r hrmem) hrq) (lt_irrefl q)
          · rw [hrafter q hq2 hrq]
            have hqp : q ≠ p := fun he => hninr (he ▸ hq2)
            simp [setInfo, hqp]
      · rw [if_neg ha] at hres ⊢
        refine ⟨p, List.mem_cons_self _ _, ?_, ?_, ?_⟩
        · simp [setInfo, failedAt]
        · intro q hq hqp
          rcases List.mem_cons.mp hq with rfl | hq2
          · exact absurd hqp (lt_irrefl q)
          · exact absurd hqp (absurd (hlt q hq2) (by omega))
        · intro q hq hpq
          rcases List.mem_cons.mp hq with rfl | hq2
          · exact absurd hpq (lt_irrefl q)
          · have hqp : q ≠ p := fun he => hninr (he ▸ hq2)
            simp [setInfo, hqp]

end LoopInvariants

section NoRulesInvariants

open CFIValidatorEnhanced

/-- The enhanced no-rules loop touches only the keys of its scanned
positions. -/
theorem checkNoRulesE_frame (code : List Char) :
    ∀ (ps : List Nat) (I : Info) (j : Nat), j ∉ ps.map (· + 1) →
      (CFIValidatorEnhanced.checkNoRules code ps I).2 j = I j := by
  intro ps
  induction ps with
  | nil => intro I j _; rfl
  | cons p rest ih =>
    intro I j hj
    rw [List.map_cons, List.mem_cons] at hj
    push_neg at hj
    obtain ⟨hj1, hj2⟩ := hj
    simp only [CFIValidatorEnhanced.checkNoRules]
    by_cases ha : pyIsAlphaChar (code.getD p ' ') = true
    · rw [if_pos ha, ih _ j hj2]
      simp [setInfo, hj1]
    · rw [if_neg ha]
      simp [setInfo, hj1]

/-- When the enhanced no-rules loop succeeds, every scanned position is
resolved and accepted. -/
theorem checkNoRulesE_none (code : List Char) :
    ∀ (ps : List Nat) (I : Info), ps.Pairwise (· < ·) →
      (CFIValidatorEnhanced.checkNoRules code ps I).1 = none →
      ∀ p ∈ ps, resolvedOK ((CFIValidatorEnhanced.checkNoRules code ps I).2 (p + 1)) := by
  intro ps
  induction ps with
  | nil => intro I _ _ p hp; cases hp
  | cons p rest ih =>
    intro I hpw hres q hq
    have hninr : p ∉ rest := fun hmem =>
      absurd ((List.pairwise_cons.mp hpw).1 p hmem) (lt_irrefl p)
    have hrestpw := (List.pairwise_cons.mp hpw).2
    simp only [CFIValidatorEnhanced.checkNoRules] at hres ⊢
    by_cases ha : pyIsAlphaChar (code.getD p ' ') = true
    · rw [if_pos ha] at hres ⊢
      rcases List.mem_cons.mp hq with rfl | hq2
      · rw [checkNoRulesE_frame code rest _ (q + 1)
          (fun hmem => hninr (succ_mem_map_iff.mp hmem))]
        simp [setInfo, resolvedOK]
      · exact ih _ hrestpw hres q hq2
    · rw [if_neg ha] at hres
      cases hres

/-- When the enhanced no-rules loop fails, some scanned position carries
the failure, every earlier scanned position is resolved and accepted, and
every later scanned position is untouched. -/
theorem checkNoRulesE_some (code : List Char) :
    ∀ (ps : List Nat) (I : Info) (m : String), ps.Pairwise (· < ·) →
      (CFIValidatorEnhanced.checkNoRules code ps I).1 = some m →
      ∃ p ∈ ps, failedAt ((CFIValidatorEnhanced.checkNoRules code ps I).2 (p + 1))
        ∧ (∀ q ∈ ps, q < p →
            resolvedOK ((CFIValidatorEnhanced.checkNoRules code ps I).2 (q + 1)))
        ∧ (∀ q ∈ ps, p < q →
            (CFIValidatorEnhanced.checkNoRules code ps I).2 (q + 1) = I (q + 1)) := by
  intro ps
  induction ps with
  | nil => intro I m _ hres; cases hres
  | cons p rest ih =>
    intro I m hpw hres
    have hlt : ∀ q ∈ rest, p < q := (List.pairwise_cons.mp hpw).1
    have hninr : p ∉ rest := fun hmem => absurd (hlt p hmem) (lt_irrefl p)
    have hrestpw := (List.pairwise_cons.mp hpw).2
    simp only [CFIValidatorEnhanced.checkNoRules] at hres ⊢
    by_cases ha : pyIsAlphaChar (code.getD p ' ') = true
    · rw [if_pos ha] at hres ⊢
      obtain ⟨r, hrmem, hrfail, hrbefore, hrafter⟩ := ih _ m hrestpw hres
      refine ⟨r, List.mem_cons_of_mem _ hrmem, hrfail, ?_, ?_⟩
      · intro q hq hqr
        rcases List.mem_cons.mp hq with rfl | hq2
        · rw [checkNoRulesE_frame code rest _ (q + 1)
            (fun hmem => hninr (succ_mem_map_iff.mp hmem))]
          simp [setInfo, resolvedOK]
        · exact hrbefore q hq2 hqr
      · intro q hq hrq
        rcases List.mem_cons.mp hq with rfl | hq2
        · exact absurd (lt_trans (hlt r hrmem) hrq) (lt_irrefl q)
        · rw [hrafter q hq2 hrq]
          have hqp : q ≠ p := fun he => hninr (he ▸ hq2)
          simp [setInfo, hqp]
    · rw [if_neg ha] at hres ⊢
      refine ⟨p, List.mem_cons_self _ _, ?_, ?_, ?_⟩
      · simp [setInfo, failedAt]
      · intro q hq hqp
        rcases List.mem_cons.mp hq with rfl | hq2
        · exact absurd hqp (lt_irrefl q)
        · exact absurd hqp (absurd (hlt q hq2) (by omega))
      · intro q hq hpq
        rcases List.mem_cons.mp hq with rfl | hq2
        · exact absurd hpq (lt_irrefl q)
        · have hqp : q ≠ p := fun he => hninr (he ▸ hq2)
          simp [setInfo, hqp]

end NoRulesInvariants

section C4Assembly

open CFIValidatorEnhanced

/-- Membership in the scanned position list from numeric bounds. -/
theorem mem_2345_of {q : Nat} (hl : 2 ≤ q) (hr : q ≤ 5) :
    q ∈ ([2, 3, 4, 5] : List Nat) := by
  interval_cases q <;> decide

/-- Numeric bounds from membership in the scanned position list. -/
theorem mem_2345_bounds {q : Nat} (h : q ∈ ([2, 3, 4, 5] : List Nat)) :
    2 ≤ q ∧ q ≤ 5 := by
  simp only [List.mem_cons, List.not_mem_nil, or_false] at h
  omega

/-- Assembly of the per-position invariant from the loop facts: given a
map that resolves positions 1 and 2 positively and leaves 3-6 untouched,
and a loop over zero-indexed positions 2-5 satisfying the frame, success
and failure properties, the final decomposition satisfies the claimed
invariant. -/
theorem info_spec_of_loop (I4 : Info) (R : Option String × Info)
    (hframe : ∀ j, j ∉ ([2, 3, 4, 5] : List Nat).map (· + 1) → R.2 j = I4 j)
    (hnone : R.1 = none → ∀ p ∈ ([2, 3, 4, 5] : List Nat), resolvedOK (R.2 (p + 1)))
    (hsome : ∀ m, R.1 = some m →
        ∃ p ∈ ([2, 3, 4, 5] : List Nat), failedAt (R.2 (p + 1))
          ∧ (∀ q ∈ ([2, 3, 4, 5] : List Nat), q < p → resolvedOK (R.2 (q + 1)))
          ∧ (∀ q ∈ ([2, 3, 4, 5] : List Nat), p < q → R.2 (q + 1) = I4 (q + 1)))
    (h1 : resolvedOK (I4 1)) (h2 : resolvedOK (I4 2))
    (hrest : ∀ j, 3 ≤ j →
        (I4 j).value = none ∧ (I4 j).meaning = none ∧ (I4 j).valid = none) :
    ((R.1 = none → ∀ k, 1 ≤ k → k ≤ 6 → resolvedOK (R.2 k))
     ∧ (∀ k, 1 ≤ k → k ≤ 6 → (R.2 k).valid = some false →
         failedAt (R.2 k)
         ∧ (∀ j, 1 ≤ j → j < k → (R.2 j).valid = some true)
         ∧ (∀ j, k < j → j ≤ 6 → unresolved (R.2 j)))) := by
  have hf1 : R.2 1 = I4 1 := hframe 1 (by decide)
  have hf2 : R.2 2 = I4 2 := hframe 2 (by decide)
  have hres12 : resolvedOK (R.2 1) ∧ resolvedOK (R.2 2) := by
    rw [hf1, hf2]; exact ⟨h1, h2⟩
  constructor
  · intro hnres k hk1 hk6
    have hall := hnone hnres
    interval_cases k
    · exact hres12.1
    · exact hres12.2
    · exact hall 2 (by decide)
    · exact hall 3 (by decide)
    · exact hall 4 (by decide)
    · exact hall 5 (by decide)
  · intro k hk1 hk6 hkfalse
    cases hR : R.1 with
    | none =>
      exfalso
      have hall := hnone hR
      have hktrue : (R.2 k).valid = some true := by
        interval_cases k
        · exact hres12.1.1
        · exact hres12.2.1
        · exact (hall 2 (by decide)).1
        · exact (hall 3 (by decide)).1
        · exact (hall 4 (by decide)).1
        · exact (hall 5 (by decide)).1
      rw [hktrue] at hkfalse
      simp at hkfalse
    | some m =>
      obtain ⟨p, hpmem, hpfail, hbefore, hafter⟩ := hsome m hR
      obtain ⟨hp2, hp5⟩ := mem_2345_bounds hpmem
      have hkp : k = p + 1 := by
        by_contra hne
        have hkv : (R.2 k).valid = some true ∨ (R.2 k).valid = none := by
          by_cases hk12 : k ≤ 2
          · left
            interval_cases k
            · exact hres12.1.1
            · exact hres12.2.1
          · push_neg at hk12
            have hk3 : 3 ≤ k := hk12
            have hkm : k - 1 ∈ ([2, 3, 4, 5] : List Nat) :=
              mem_2345_of (by omega) (by omega)
            have hk1e : k - 1 + 1 = k := by omega
            rcases Nat.lt_or_ge (k - 1) p with hlt | hge
            · left
              have := (hbefore (k - 1) hkm hlt).1
              rwa [hk1e] at this
            · have hgt : p < k - 1 := by omega
              right
              have heq := hafter (k - 1) hkm hgt
              rw [hk1e] at heq
              rw [heq]
              exact (hrest k hk3).2.2
        rcases hkv with hv | hv <;> rw [hv] at hkfalse <;> simp at hkfalse
      subst hkp
      refine ⟨hpfail, ?_, ?_⟩
      · intro j hj1 hjk
        by_cases hj2 : j ≤ 2
        · interval_cases j
          · exact hres12.1.1
          · exact hres12.2.1
        · push_neg at hj2
          have hjm : j - 1 ∈ ([2, 3, 4, 5] : List Nat) :=
            mem_2345_of (by omega) (by omega)
          have hj1e : j - 1 + 1 = j := by omega
          have := (hbefore (j - 1) hjm (by omega)).1
          rwa [hj1e] at this
      · intro j hkj hj6
        have hjm : j - 1 ∈ ([2, 3, 4, 5] : List Nat) :=
          mem_2345_of (by omega) (by omega)
        have hj1e : j - 1 + 1 = j := by omega
        have heq := hafter (j - 1) hjm (by omega)
        rw [hj1e] at heq
        rw [heq]
        have hj3 : 3 ≤ j := by omega
        exact hrest j hj3

end C4Assembly

section C4Core

open CFIValidatorEnhanced

/-- The per-position invariant for the attribute loop over positions 2-5,
starting from a map with positions 1 and 2 resolved and 3-6 untouched. -/
theorem checkAttrsE_spec_full (rules : Dict Nat (Dict Char String)) (cg : String)
    (code : List Char) (I4 : Info)
    (h1 : resolvedOK (I4 1)) (h2 : resolvedOK (I4 2))
    (hrest : ∀ j, 3 ≤ j →
        (I4 j).value = none ∧ (I4 j).meaning = none ∧ (I4 j).valid = none) :
    (((CFIValidatorEnhanced.checkAttrs rules cg code [2, 3, 4, 5] I4).1 = none →
        ∀ k, 1 ≤ k → k ≤ 6 →
          resolvedOK ((CFIValidatorEnhanced.checkAttrs rules cg code [2, 3, 4, 5] I4).2 k))
     ∧ (∀ k, 1 ≤ k → k ≤ 6 →
          ((CFIValidatorEnhanced.checkAttrs rules cg code [2, 3, 4, 5] I4).2 k).valid
              = some false →
          failedAt ((CFIValidatorEnhanced.checkAttrs rules cg code [2, 3, 4, 5] I4).2 k)
          ∧ (∀ j, 1 ≤ j → j < k →
              ((CFIValidatorEnhanced.checkAttrs rules cg code [2, 3, 4, 5] I4).2 j).valid
                = some true)
          ∧ (∀ j, k < j → j ≤ 6 →
              unresolved ((CFIValidatorEnhanced.checkAttrs rules cg code [2, 3, 4, 5] I4).2 j)))) :=
  info_spec_of_loop I4 (CFIValidatorEnhanced.checkAttrs rules cg code [2, 3, 4, 5] I4)
    (fun j hj => checkAttrsE_frame rules cg code _ _ j hj)
    (fun hn p hp => checkAttrsE_none rules cg code _ _ (by decide) hn p hp)
    (fun m hm => checkAttrsE_some rules cg code _ _ m (by decide) hm)
    h1 h2 hrest

/-- The per-position invariant for the no-rules loop over positions 2-5,
starting from a map with positions 1 and 2 resolved and 3-6 untouched. -/
theorem checkNoRulesE_spec_full (code : List Char) (I4 : Info)
    (h1 : resolvedOK (I4 1)) (h2 : resolvedOK (I4 2))
    (hrest : ∀ j, 3 ≤ j →
        (I4 j).value = none ∧ (I4 j).meaning = none ∧ (I4 j).valid = none) :
    (((CFIValidatorEnhanced.checkNoRules code [2, 3, 4, 5] I4).1 = none →
        ∀ k, 1 ≤ k → k ≤ 6 →
          resolvedOK ((CFIValidatorEnhanced.checkNoRules code [2, 3, 4, 5] I4).2 k))
     ∧ (∀ k, 1 ≤ k → k ≤ 6 →
          ((CFIValidatorEnhanced.checkNoRules code [2, 3, 4, 5] I4).2 k).valid = some false →
          failedAt ((CFIValidatorEnhanced.checkNoRules code [2, 3, 4, 5] I4).2 k)
          ∧ (∀ j, 1 ≤ j → j < k →
              ((CFIValidatorEnhanced.checkNoRules code [2, 3, 4, 5] I4).2 j).valid = some true)
          ∧ (∀ j, k < j → j ≤ 6 →
              unresolved ((CFIValidatorEnhanced.checkNoRules code [2, 3, 4, 5] I4).2 j)))) :=
  info_spec_of_loop I4 (CFIValidatorEnhanced.checkNoRules code [2, 3, 4, 5] I4)
    (fun j hj => checkNoRulesE_frame code _ _ j hj)
    (fun hn p hp => checkNoRulesE_none code _ _ (by decide) hn p hp)
    (fun m hm => checkNoRulesE_some code _ _ m (by decide) hm)
    h1 h2 hrest

end C4Core

/-- Equation form of the attribute-loop invariant. -/
theorem checkAttrsE_spec_eq (rules : Dict Nat (Dict Char String)) (cg : String)
    (code : List Char) (I4 : CFIValidatorEnhanced.Info) (err : Option String)
    (I5 : CFIValidatorEnhanced.Info)
    (hloop : CFIValidatorEnhanced.checkAttrs rules cg code [2, 3, 4, 5] I4 = (err, I5))
    (h1 : CFIValidatorEnhanced.resolvedOK (I4 1))
    (h2 : CFIValidatorEnhanced.resolvedOK (I4 2))
    (hrest : ∀ j, 3 ≤ j →
        (I4 j).value = none ∧ (I4 j).meaning = none ∧ (I4 j).valid = none) :
    ((err = none → ∀ k, 1 ≤ k → k ≤ 6 → CFIValidatorEnhanced.resolvedOK (I5 k))
     ∧ (∀ k, 1 ≤ k → k ≤ 6 → (I5 k).valid = some false →
         CFIValidatorEnhanced.failedAt (I5 k)
         ∧ (∀ j, 1 ≤ j → j < k → (I5 j).valid = some true)
         ∧ (∀ j, k < j → j ≤ 6 → CFIValidatorEnhanced.unresolved (I5 j)))) := by
  have hs := checkAttrsE_spec_full rules cg code I4 h1 h2 hrest
  rw [hloop] at hs
  exact hs

/-- Equation form of the no-rules-loop invariant. -/
theorem checkNoRulesE_spec_eq (code : List Char) (I4 : CFIValidatorEnhanced.Info)
    (err : Option String) (I5 : CFIValidatorEnhanced.Info)
    (hloop : CFIValidatorEnhanced.checkNoRules code [2, 3, 4, 5] I4 = (err, I5))
    (h1 : CFIValidatorEnhanced.resolvedOK (I4 1))
    (h2 : CFIValidatorEnhanced.resolvedOK (I4 2))
    (hrest : ∀ j, 3 ≤ j →
        (I4 j).value = none ∧ (I4 j).meaning = none ∧ (I4 j).valid = none) :
    ((err = none → ∀ k, 1 ≤ k → k ≤ 6 → CFIValidatorEnhanced.resolvedOK (I5 k))
     ∧ (∀ k, 1 ≤ k → k ≤ 6 → (I5 k).valid = some false →
         CFIValidatorEnhanced.failedAt (I5 k)
         ∧ (∀ j, 1 ≤ j → j < k → (I5 j).valid = some true)
         ∧ (∀ j, k < j → j ≤ 6 → CFIValidatorEnhanced.unresolved (I5 j)))) := by
  have hs := checkNoRulesE_spec_full code I4 h1 h2 hrest
  rw [hloop] at hs
  exact hs

/-- Case analysis of the enhanced positional phase: whatever triple it
returns satisfies the per-position invariant. -/
theorem afterBasicE_cases (code : List Char) (b : Bool) (msg : String)
    (I : CFIValidatorEnhanced.Info)
    (heq : CFIValidatorEnhanced.afterBasic code CFIValidatorEnhanced.initInfo = (b, msg, I)) :
    (b = true → ∀ k, 1 ≤ k → k ≤ 6 → CFIValidatorEnhanced.resolvedOK (I k))
    ∧ (∀ k, 1 ≤ k → k ≤ 6 → (I k).valid = some false →
        CFIValidatorEnhanced.failedAt (I k)
        ∧ (∀ j, 1 ≤ j → j < k → (I j).valid = some true)
        ∧ (∀ j, k < j → j ≤ 6 → CFIValidatorEnhanced.unresolved (I j))) := by
  simp only [CFIValidatorEnhanced.afterBasic] at heq
  split at heq
  next hcat =>
    injection heq with hb rest
    injection rest with hmsg hI
    subst hb
    subst hI
    constructor
    · intro habs; simp at habs
    · intro k hk1 hk6 hkf
      have hk : k = 1 := by
        by_contra hne
        simp [CFIValidatorEnhanced.setInfo, CFIValidatorEnhanced.initInfo, hne] at hkf
      subst hk
      refine ⟨?_, ?_, ?_⟩
      · simp [CFIValidatorEnhanced.failedAt, CFIValidatorEnhanced.setInfo]
      · intro j hj1 hjk; omega
      · intro j h1j hj6
        have hjne : j ≠ 1 := by omega
        simp [CFIValidatorEnhanced.unresolved, CFIValidatorEnhanced.setInfo,
          CFIValidatorEnhanced.initInfo, hjne]
  next catDesc hcat =>
    split at heq
    next hgrp =>
      injection heq with hb rest
      injection rest with hmsg hI
      subst hb
      subst hI
      constructor
      · intro habs; simp at habs
      · intro k hk1 hk6 hkf
        have hk : k = 2 := by
          by_contra hne
          by_cases hone : k = 1
          · subst hone
            simp [CFIValidatorEnhanced.setInfo, CFIValidatorEnhanced.initInfo] at hkf
          · simp [CFIValidatorEnhanced.setInfo, CFIValidatorEnhanced.initInfo,
              hne, hone] at hkf
        subst hk
        refine ⟨?_, ?_, ?_⟩
        · simp [CFIValidatorEnhanced.failedAt, CFIValidatorEnhanced.setInfo]
        · intro j hj1 hjk
          have hjone : j = 1 := by omega
          subst hjone
          simp [CFIValidatorEnhanced.setInfo]
        · intro j h2j hj6
          have hjne1 : j ≠ 1 := by omega
          have hjne2 : j ≠ 2 := by omega
          simp [CFIValidatorEnhanced.unresolved, CFIValidatorEnhanced.setInfo,
            CFIValidatorEnhanced.initInfo, hjne1, hjne2]
    next grpDesc hgrp =>
      split at heq
      next rules hA =>
        split at heq
        next m I5 hloop =>
          injection heq with hb rest
          injection rest with hmsg hI
          subst hb
          subst hI
          have hspec := checkAttrsE_spec_eq _ _ _ _ _ _ hloop ?_ ?_ ?_
          rotate_left
          · simp [CFIValidatorEnhanced.setInfo, CFIValidatorEnhanced.resolvedOK]
          · simp [CFIValidatorEnhanced.setInfo, CFIValidatorEnhanced.resolvedOK]
          · intro j hj3
            have hjne1 : j ≠ 1 := by omega
            have hjne2 : j ≠ 2 := by omega
            simp [CFIValidatorEnhanced.setInfo, CFIValidatorEnhanced.initInfo, hjne1, hjne2]
          constructor
          · intro habs; simp at habs
          · exact hspec.2
        next I5 hloop =>
          injection heq with hb rest
          injection rest with hmsg hI
          subst hb
          subst hI
          have hspec := checkAttrsE_spec_eq _ _ _ _ _ _ hloop ?_ ?_ ?_
          rotate_left
          · simp [CFIValidatorEnhanced.setInfo, CFIValidatorEnhanced.resolvedOK]
          · simp [CFIValidatorEnhanced.setInfo, CFIValidatorEnhanced.resolvedOK]
          · intro j hj3
            have hjne1 : j ≠ 1 := by omega
            have hjne2 : j ≠ 2 := by omega
            simp [CFIValidatorEnhanced.setInfo, CFIValidatorEnhanced.initInfo, hjne1, hjne2]
          exact ⟨fun _ => hspec.1 rfl, hspec.2⟩
      next hA =>
        split at heq
        next m I5 hloop =>
          injection heq with hb rest
          injection rest with hmsg hI
          subst hb
          subst hI
          have hspec := checkNoRulesE_spec_eq _ _ _ _ hloop ?_ ?_ ?_
          rotate_left
          · simp [CFIValidatorEnhanced.setInfo, CFIValidatorEnhanced.resolvedOK]
          · simp [CFIValidatorEnhanced.setInfo, CFIValidatorEnhanced.resolvedOK]
          · intro j hj3
            have hjne1 : j ≠ 1 := by omega
            have hjne2 : j ≠ 2 := by omega
            simp [CFIValidatorEnhanced.setInfo, CFIValidatorEnhanced.initInfo, hjne1, hjne2]
          constructor
          · intro habs; simp at habs
          · exact hspec.2
        next I5 hloop =>
          injection heq with hb rest
          injection rest with hmsg hI
          subst hb
          subst hI
          have hspec := checkNoRulesE_spec_eq _ _ _ _ hloop ?_ ?_ ?_
          rotate_left
          · simp [CFIValidatorEnhanced.setInfo, CFIValidatorEnhanced.resolvedOK]
          · simp [CFIValidatorEnhanced.setInfo, CFIValidatorEnhanced.resolvedOK]
          · intro j hj3
            have hjne1 : j ≠ 1 := by omega
            have hjne2 : j ≠ 2 := by omega
            simp [CFIValidatorEnhanced.setInfo, CFIValidatorEnhanced.initInfo, hjne1, hjne2]
          exact ⟨fun _ => hspec.1 rfl, hspec.2⟩

/-- The untouched initial decomposition satisfies the invariant trivially. -/
theorem initInfo_cases :
    (false = true → ∀ k, 1 ≤ k → k ≤ 6 →
        CFIValidatorEnhanced.resolvedOK (CFIValidatorEnhanced.initInfo k))
    ∧ (∀ k, 1 ≤ k → k ≤ 6 → (CFIValidatorEnhanced.initInfo k).valid = some false →
        CFIValidatorEnhanced.failedAt (CFIValidatorEnhanced.initInfo k)
        ∧ (∀ j, 1 ≤ j → j < k → (CFIValidatorEnhanced.initInfo j).valid = some true)
        ∧ (∀ j, k < j → j ≤ 6 →
            CFIValidatorEnhanced.unresolved (CFIValidatorEnhanced.initInfo j))) := by
  constructor
  · intro h; simp at h
  · intro k _ _ hkf
    simp [CFIValidatorEnhanced.initInfo] at hkf

/-- C4: for every input, the per-position decomposition of the enhanced
validate satisfies the invariant: when the overall result is valid, all
six records are resolved with a positive validity flag and non-null value
and meaning; when it is invalid at a position k of 1-6 — the record whose
validity flag is negative — exactly that record carries the error detail,
every record before k has a positive flag, and every record after k is
left unresolved (value, meaning and validity flag all unset). -/
theorem C4_decomposition (i : Option String) :
    ((CFIValidatorEnhanced.validate i).1 = true →
      ∀ k, 1 ≤ k → k ≤ 6 →
        CFIValidatorEnhanced.resolvedOK ((CFIValidatorEnhanced.validate i).2.2 k))
    ∧ (∀ k, 1 ≤ k → k ≤ 6 →
        ((CFIValidatorEnhanced.validate i).2.2 k).valid = some false →
        CFIValidatorEnhanced.failedAt ((CFIValidatorEnhanced.validate i).2.2 k)
        ∧ (∀ j, 1 ≤ j → j < k →
            ((CFIValidatorEnhanced.validate i).2.2 j).valid = some true)
        ∧ (∀ j, k < j → j ≤ 6 →
            CFIValidatorEnhanced.unresolved ((CFIValidatorEnhanced.validate i).2.2 j))) := by
  rcases hres : CFIValidatorEnhanced.validate i with ⟨b, msg, I⟩
  dsimp only
  cases i with
  | none =>
    have hval : CFIValidatorEnhanced.validate none
        = (false, strTypeMsg, CFIValidatorEnhanced.initInfo) := rfl
    rw [hval] at hres
    injection hres with hb rest
    injection rest with hmsg hI
    subst hb
    subst hI
    exact initInfo_cases
  | some s =>
    simp only [CFIValidatorEnhanced.validate] at hres
    split at hres
    · injection hres with hb rest
      injection rest with hmsg hI
      subst hb
      subst hI
      exact initInfo_cases
    · split at hres
      · injection hres with hb rest
        injection rest with hmsg hI
        subst hb
        subst hI
        exact initInfo_cases
      · split at hres
        · injection hres with hb rest
          injection rest with hmsg hI
          subst hb
          subst hI
          exact initInfo_cases
        · exact afterBasicE_cases (pyUpper s.data) b msg I hres

/-- Witness for C4: at ESAXXX the failure sits at position 3, position 2
is positively resolved and position 4 is unresolved; at the valid ESVNFB
position 5 is resolved. -/
theorem C4_decomposition_witness :
    CFIValidatorEnhanced.failedAt ((CFIValidatorEnhanced.validate (some "ESAXXX")).2.2 3)
    ∧ ((CFIValidatorEnhanced.validate (some "ESAXXX")).2.2 2).valid = some true
    ∧ CFIValidatorEnhanced.unresolved ((CFIValidatorEnhanced.validate (some "ESAXXX")).2.2 4)
    ∧ CFIValidatorEnhanced.resolvedOK ((CFIValidatorEnhanced.validate (some "ESVNFB")).2.2 5) := by
  have h := (C4_decomposition (some "ESAXXX")).2 3 (by decide) (by decide) (by decide)
  have hv := (C4_decomposition (some "ESVNFB")).1 (by decide) 5 (by decide) (by decide)
  exact ⟨h.1, h.2.1 2 (by decide) (by decide), h.2.2 4 (by decide) (by decide), hv⟩
